import Mathlib

/-!
Verification of the precog-markets binary protocol layer.

Shallow embedding of `src/serialization.js` (BorshWriter / BorshReader),
`src/accounts.js` (account decoders, dual-layout Market heuristic),
`src/instructions.js` (instruction builders, ProposalAction union),
`src/constants.js` (protocol constants) and
`PrecogMarketsClient.calculatePayout` from `src/client.js`.

Buffers are modelled as `List Nat` of byte values; JS `bigint` becomes
`Nat`/`Int` with explicit two's-complement conversion where the code uses
signed 64-bit reads/writes; fallible operations (Node range checks,
thrown decode errors, the unbounded `_grow` loop on a zero-capacity
buffer) return `Option`.
-/

set_option maxHeartbeats 1000000
set_option maxRecDepth 100000

-- ═══════════════════════════════════════════════════════════════════════
-- Little-endian byte helpers
-- ═══════════════════════════════════════════════════════════════════════

/-- Value of a little-endian byte list: `leVal [b0, b1, ...] = b0 + 256*b1 + ...`. -/

def leVal : List Nat → Nat
  | [] => 0
  | b :: bs => b + 256 * leVal bs

/-- The `n` little-endian base-256 digits of `v` (as Node's `writeUIntLE` family stores them). -/
def leBytes : Nat → Nat → List Nat
  | 0, _ => []
  | n + 1, v => (v % 256) :: leBytes n (v / 256)

/-- `n` bytes of `b` starting at `off` (the `buf.subarray(off, off+n)` view). -/
def sliceBytes (b : List Nat) (off n : Nat) : List Nat :=
  (b.drop off).take n

/-- Little-endian value of the `n`-byte slice of `b` at `off`. -/
def leSlice (b : List Nat) (off n : Nat) : Nat :=
  leVal (sliceBytes b off n)

/-- Interpret an unsigned 64-bit value as a two's-complement signed value
(the result of Node's `readBigInt64LE`). -/
def toI64 (u : Nat) : Int :=
  if u < 2 ^ 63 then (u : Int) else (u : Int) - 2 ^ 64

/-- Sequencing of fallible decode steps (`Option.bind`, kept out-of-line so
that compiled code stays linear in the length of a decoder's read chain). -/
@[noinline] def obind (x : Option α) (f : α → Option β) : Option β :=
  x.bind f

-- ═══════════════════════════════════════════════════════════════════════
-- BorshWriter (src/serialization.js lines 11-117)
-- ═══════════════════════════════════════════════════════════════════════

/-- Writer state: the internal capacity buffer and the write offset. -/
structure BorshWriter where
  buf : List Nat
  off : Nat
deriving Repr, DecidableEq

/-- Constructor: `Buffer.alloc(initialCapacity)` (zero-filled) with offset 0. -/
def BorshWriter.new (initialCapacity : Nat := 256) : BorshWriter :=
  ⟨List.replicate initialCapacity 0, 0⟩

/-- The doubling loop of `_grow`: keep doubling `len` until `target ≤ len`.
The fuel bounds the number of iterations; the JS loop never terminates when
the capacity is 0 and more bytes are needed, which surfaces here as `none`. -/
def growLoop : Nat → Nat → Nat → Option Nat
  | 0, len, target => if target ≤ len then some len else none
  | f + 1, len, target => if target ≤ len then some len else growLoop f (2 * len) target

/-- `_grow(needed)`: returns the (possibly reallocated) capacity buffer.
Reallocation copies the old bytes to the front of a zero-filled buffer. -/
def BorshWriter.grow (w : BorshWriter) (needed : Nat) : Option (List Nat) :=
  (growLoop (w.off + needed + 1) w.buf.length (w.off + needed)).map
    fun L => w.buf ++ List.replicate (L - w.buf.length) 0

/-- `toBuffer()`: the written prefix of the capacity buffer. -/
def BorshWriter.toBuffer (w : BorshWriter) : List Nat :=
  w.buf.take w.off

/-- Overwrite `bs` into `buf` starting at `off` (Node `copy` into a buffer). -/
def setBytes (buf : List Nat) (off : Nat) (bs : List Nat) : List Nat :=
  buf.take off ++ bs ++ buf.drop (off + bs.length)

/-- Shared body of every write: grow, copy the bytes at the offset, advance. -/
def BorshWriter.writeBytesAt (w : BorshWriter) (bs : List Nat) : Option BorshWriter :=
  (w.grow bs.length).map fun buf => ⟨setBytes buf w.off bs, w.off + bs.length⟩

/-- `writeU8`: Node's `writeUInt8` rejects values outside 0..255. -/
def BorshWriter.writeU8 (w : BorshWriter) (v : Nat) : Option BorshWriter :=
  if v < 2 ^ 8 then w.writeBytesAt [v] else none

/-- `writeU16` (little-endian, Node range check). -/
def BorshWriter.writeU16 (w : BorshWriter) (v : Nat) : Option BorshWriter :=
  if v < 2 ^ 16 then w.writeBytesAt (leBytes 2 v) else none

/-- `writeU32` (little-endian, Node range check). -/
def BorshWriter.writeU32 (w : BorshWriter) (v : Nat) : Option BorshWriter :=
  if v < 2 ^ 32 then w.writeBytesAt (leBytes 4 v) else none

/-- `writeU64` (little-endian, Node range check on the bigint). -/
def BorshWriter.writeU64 (w : BorshWriter) (v : Nat) : Option BorshWriter :=
  if v < 2 ^ 64 then w.writeBytesAt (leBytes 8 v) else none

/-- `writeI64`: two's-complement little-endian signed 64-bit write. -/
def BorshWriter.writeI64 (w : BorshWriter) (v : Int) : Option BorshWriter :=
  if -(2 ^ 63) ≤ v ∧ v < 2 ^ 63 then
    w.writeBytesAt (leBytes 8 (v % (2 ^ 64)).toNat)
  else none

/-- `writeBool`: one byte, 1 for true and 0 for false. -/
def BorshWriter.writeBool (w : BorshWriter) (v : Bool) : Option BorshWriter :=
  w.writeU8 (if v then 1 else 0)

/-- `writeString`: u32 length prefix followed by the UTF-8 bytes
(strings are modelled by their byte lists). -/
def BorshWriter.writeString (w : BorshWriter) (s : List Nat) : Option BorshWriter := do
  let w1 ← w.writeU32 s.length
  w1.writeBytesAt s

/-- `writeFixedBytes`: raw bytes, no length prefix. -/
def BorshWriter.writeFixedBytes (w : BorshWriter) (bs : List Nat) : Option BorshWriter :=
  w.writeBytesAt bs

/-- `writeVec`: u32 count prefix then each item via the supplied writer. -/
def BorshWriter.writeVec (w : BorshWriter) (arr : List α)
    (writeFn : BorshWriter → α → Option BorshWriter) : Option BorshWriter := do
  let w1 ← w.writeU32 arr.length
  arr.foldlM writeFn w1

/-- `writeOption`: presence tag 0, or 1 followed by the payload. -/
def BorshWriter.writeOption (w : BorshWriter) (val : Option α)
    (writeFn : BorshWriter → α → Option BorshWriter) : Option BorshWriter :=
  match val with
  | none => w.writeU8 0
  | some v => do
      let w1 ← w.writeU8 1
      writeFn w1 v

/-- `writePubkey`: 32 raw bytes of the public key. -/
def BorshWriter.writePubkey (w : BorshWriter) (pk : List Nat) : Option BorshWriter :=
  w.writeFixedBytes pk

-- ═══════════════════════════════════════════════════════════════════════
-- BorshReader (src/serialization.js lines 123-229)
-- ═══════════════════════════════════════════════════════════════════════

/-- `readFixedBytes(len)`: `_check(len)` then the `len`-byte slice, cursor advanced. -/
def readFixedBytes (b : List Nat) (off n : Nat) : Option (List Nat × Nat) :=
  if off + n ≤ b.length then some (sliceBytes b off n, off + n) else none

/-- Shared body of the unsigned fixed-width reads: `_check(n)` then the
little-endian value of the next `n` bytes. -/
def readUIntLE (b : List Nat) (off n : Nat) : Option (Nat × Nat) :=
  if off + n ≤ b.length then some (leSlice b off n, off + n) else none

/-- `readU8`. -/
def readU8 (b : List Nat) (off : Nat) : Option (Nat × Nat) := readUIntLE b off 1

/-- `readU16`. -/
def readU16 (b : List Nat) (off : Nat) : Option (Nat × Nat) := readUIntLE b off 2

/-- `readU32`. -/
def readU32 (b : List Nat) (off : Nat) : Option (Nat × Nat) := readUIntLE b off 4

/-- `readU64`. -/
def readU64 (b : List Nat) (off : Nat) : Option (Nat × Nat) := readUIntLE b off 8

/-- `readI64`: signed two's-complement read of 8 little-endian bytes. -/
def readI64 (b : List Nat) (off : Nat) : Option (Int × Nat) :=
  (readUIntLE b off 8).map fun p => (toI64 p.1, p.2)

/-- `readBool`: `readU8() !== 0`. -/
def readBool (b : List Nat) (off : Nat) : Option (Bool × Nat) :=
  (readU8 b off).map fun p => (p.1 != 0, p.2)

/-- `readString`: u32 length prefix, `_check(len)`, then the body bytes. -/
def readString (b : List Nat) (off : Nat) : Option (List Nat × Nat) :=
  obind (readU32 b off) fun len =>
  obind (readFixedBytes b len.2 len.1) fun s =>
  some (s.1, s.2)

/-- Read `n` consecutive items with `f` (the loop inside `readVec` and the
fixed-count account-field loops). -/
def readCount (f : List Nat → Nat → Option (α × Nat)) (b : List Nat) :
    Nat → Nat → Option (List α × Nat)
  | 0, off => some ([], off)
  | n + 1, off =>
      obind (f b off) fun v =>
      obind (readCount f b n v.2) fun vs =>
      some (v.1 :: vs.1, vs.2)

/-- `readVec`: u32 count prefix then that many items. -/
def readVec (f : List Nat → Nat → Option (α × Nat)) (b : List Nat) (off : Nat) :
    Option (List α × Nat) :=
  obind (readU32 b off) fun len =>
  readCount f b len.1 len.2

/-- `readOption`: presence tag byte, then the payload when the tag is nonzero. -/
def readOption (f : List Nat → Nat → Option (α × Nat)) (b : List Nat) (off : Nat) :
    Option (Option α × Nat) :=
  obind (readU8 b off) fun tag =>
  if tag.1 = 0 then some (none, tag.2)
  else (f b tag.2).map fun p => (some p.1, p.2)

/-- `readPubkey`: 32 raw bytes wrapped as a public key. -/
def readPubkey (b : List Nat) (off : Nat) : Option (List Nat × Nat) :=
  readFixedBytes b off 32

/-- `skip(n)`: `_check(n)` then advance the cursor. -/
def skip (b : List Nat) (off n : Nat) : Option Nat :=
  if off + n ≤ b.length then some (off + n) else none

-- ═══════════════════════════════════════════════════════════════════════
-- Protocol constants (src/constants.js)
-- ═══════════════════════════════════════════════════════════════════════

def MAX_OUTCOMES : Nat := 10

def MAX_TITLE_LEN : Nat := 128

def MAX_DESCRIPTION_LEN : Nat := 512

def MAX_OUTCOME_LABEL_LEN : Nat := 64

/-- System program address `11111111111111111111111111111111` (32 zero bytes). -/
def SYSTEM_PROGRAM_ID : List Nat := List.replicate 32 0

/-- Single-byte instruction discriminator for `placeBet`. -/
def DISCRIMINATORS.PLACE_BET : List Nat := [2]

/-- 8-byte Market account discriminator (`MARKETV2`). -/
def ACCOUNT_DISCRIMINATORS.MARKET : List Nat := [0x4d, 0x41, 0x52, 0x4b, 0x45, 0x54, 0x56, 0x32]

/-- 8-byte UserPosition account discriminator (`POSITNV1`). -/
def ACCOUNT_DISCRIMINATORS.USER_POSITION : List Nat := [0x50, 0x4f, 0x53, 0x49, 0x54, 0x4e, 0x56, 0x31]

-- ═══════════════════════════════════════════════════════════════════════
-- Account records (src/accounts.js)
-- ═══════════════════════════════════════════════════════════════════════

/-- `STATUS_MAP[status] ?? `Unknown(status)``. -/
def STATUS_MAP (s : Nat) : String :=
  match s with
  | 0 => "Open"
  | 1 => "Resolved"
  | 2 => "Finalized"
  | 3 => "Voided"
  | n => "Unknown(" ++ toString n ++ ")"

/-- `DENOM_MAP[denomination] ?? `Unknown(denomination)``. -/
def DENOM_MAP (d : Nat) : String :=
  match d with
  | 0 => "NativeSol"
  | 1 => "SplToken"
  | 2 => "Token2022"
  | n => "Unknown(" ++ toString n ++ ")"

/-- `decodeFixedString(buf, len)`: the first `len` bytes of a fixed region. -/
def decodeFixedString (buf : List Nat) (len : Nat) : List Nat :=
  buf.take len

/-- Decoded Market account (strings as their UTF-8 byte lists, pubkeys as 32-byte lists). -/
structure MarketAccount where
  discriminator : List Nat
  bump : Nat
  marketId : Nat
  authority : List Nat
  authorityIsMultisig : Bool
  status : Nat
  statusName : String
  resolutionDeadline : Int
  resolvedAt : Int
  winningOutcome : Nat
  feeBps : Nat
  feesCollected : Nat
  numOutcomes : Nat
  outcomePools : List Nat
  totalPool : Nat
  totalPositions : Nat
  denomination : Nat
  denominationName : String
  tokenMint : List Nat
  tokenDecimals : Nat
  hasTransferFee : Bool
  transferFeeBps : Nat
  maxTransferFee : Nat
  creator : List Nat
  creatorFeeBps : Nat
  title : List Nat
  description : List Nat
  outcomeLabels : List (List Nat)
deriving Repr, DecidableEq

/-- The `for (i = 0; i < numOutcomes; i++) push(decodeFixedString(rawLabels[i], labelLens[i]))`
loop; indexing past the 10 fixed slots throws in JS, which surfaces as `none`. -/
def buildLabels (rawLabels : List (List Nat)) (labelLens : List Nat) (numOutcomes : Nat) :
    Option (List (List Nat)) :=
  (List.range numOutcomes).mapM fun i => do
    let raw ← rawLabels[i]?
    let len ← labelLens[i]?
    pure (decodeFixedString raw len)

/-- `decodeMarket` (src/accounts.js lines 77-208), including the v0.2.0
dual-layout detection: speculatively decode the new layout, and if the
speculative title length is 0 while the old-layout title-length position
holds a nonzero in-capacity value, rewind and decode the old layout.
Each step binds a pair of the value read (`.1`) and the next cursor (`.2`). -/
def decodeMarket (data : List Nat) : Option MarketAccount :=
  obind (readFixedBytes data 0 8) fun disc =>
  obind (readU8 data disc.2) fun bump =>
  obind (readU64 data bump.2) fun marketId =>
  obind (readPubkey data marketId.2) fun authority =>
  obind (readBool data authority.2) fun authorityIsMultisig =>
  obind (readU8 data authorityIsMultisig.2) fun status =>
  obind (readI64 data status.2) fun resolutionDeadline =>
  obind (readI64 data resolutionDeadline.2) fun resolvedAt =>
  obind (readU8 data resolvedAt.2) fun winningOutcome =>
  obind (readU16 data winningOutcome.2) fun feeBps =>
  obind (readU64 data feeBps.2) fun feesCollected =>
  obind (readU8 data feesCollected.2) fun numOutcomes =>
  obind (readCount readU64 data MAX_OUTCOMES numOutcomes.2) fun outcomePools =>
  obind (readU64 data outcomePools.2) fun totalPool =>
  obind (readU64 data totalPool.2) fun totalPositions =>
  obind (readU8 data totalPositions.2) fun denomination =>
  obind (readPubkey data denomination.2) fun tokenMint =>
  obind (readU8 data tokenMint.2) fun tokenDecimals =>
  obind (readBool data tokenDecimals.2) fun hasTransferFee =>
  obind (readU16 data hasTransferFee.2) fun transferFeeBps =>
  obind (readU64 data transferFeeBps.2) fun maxTransferFee =>
  -- v0.2.0 layout detection around preCreatorOffset = maxTransferFee.2
  obind (readFixedBytes data maxTransferFee.2 32) fun creatorBytes =>
  obind (readU16 data creatorBytes.2) fun creatorFeeBpsVal =>
  obind (readFixedBytes data creatorFeeBpsVal.2 MAX_TITLE_LEN) fun titleBytesNew =>
  obind (readU16 data titleBytesNew.2) fun titleLenNew =>
  let preCreatorOffset := maxTransferFee.2
  let oldTitleLenOffset := preCreatorOffset + MAX_TITLE_LEN
  let oldTitleLen := leSlice data oldTitleLenOffset 2
  let useNewLayout : Bool :=
    if titleLenNew.1 = 0 ∧ oldTitleLenOffset + 2 ≤ data.length ∧
        0 < oldTitleLen ∧ oldTitleLen ≤ MAX_TITLE_LEN then false else true
  if useNewLayout then
    obind (readFixedBytes data titleLenNew.2 MAX_DESCRIPTION_LEN) fun descBytes =>
    obind (readU16 data descBytes.2) fun descLen =>
    obind (readCount (fun b i => readFixedBytes b i MAX_OUTCOME_LABEL_LEN)
      data MAX_OUTCOMES descLen.2) fun rawLabels =>
    obind (readCount readU16 data MAX_OUTCOMES rawLabels.2) fun labelLens =>
    obind (buildLabels rawLabels.1 labelLens.1 numOutcomes.1) fun outcomeLabels =>
    some { discriminator := disc.1, bump := bump.1, marketId := marketId.1,
           authority := authority.1, authorityIsMultisig := authorityIsMultisig.1,
           status := status.1, statusName := STATUS_MAP status.1,
           resolutionDeadline := resolutionDeadline.1, resolvedAt := resolvedAt.1,
           winningOutcome := winningOutcome.1, feeBps := feeBps.1,
           feesCollected := feesCollected.1, numOutcomes := numOutcomes.1,
           outcomePools := outcomePools.1.take numOutcomes.1,
           totalPool := totalPool.1, totalPositions := totalPositions.1,
           denomination := denomination.1, denominationName := DENOM_MAP denomination.1,
           tokenMint := tokenMint.1, tokenDecimals := tokenDecimals.1,
           hasTransferFee := hasTransferFee.1, transferFeeBps := transferFeeBps.1,
           maxTransferFee := maxTransferFee.1,
           creator := creatorBytes.1, creatorFeeBps := creatorFeeBpsVal.1,
           title := decodeFixedString titleBytesNew.1 titleLenNew.1,
           description := decodeFixedString descBytes.1 descLen.1,
           outcomeLabels := outcomeLabels }
  else
    -- Old layout: rewind to preCreatorOffset and read without creator fields
    obind (readFixedBytes data preCreatorOffset MAX_TITLE_LEN) fun titleBytes =>
    obind (readU16 data titleBytes.2) fun titleLen =>
    obind (readFixedBytes data titleLen.2 MAX_DESCRIPTION_LEN) fun descBytes =>
    obind (readU16 data descBytes.2) fun descLen =>
    obind (readCount (fun b i => readFixedBytes b i MAX_OUTCOME_LABEL_LEN)
      data MAX_OUTCOMES descLen.2) fun rawLabels =>
    obind (readCount readU16 data MAX_OUTCOMES rawLabels.2) fun labelLens =>
    obind (buildLabels rawLabels.1 labelLens.1 numOutcomes.1) fun outcomeLabels =>
    some { discriminator := disc.1, bump := bump.1, marketId := marketId.1,
           authority := authority.1, authorityIsMultisig := authorityIsMultisig.1,
           status := status.1, statusName := STATUS_MAP status.1,
           resolutionDeadline := resolutionDeadline.1, resolvedAt := resolvedAt.1,
           winningOutcome := winningOutcome.1, feeBps := feeBps.1,
           feesCollected := feesCollected.1, numOutcomes := numOutcomes.1,
           outcomePools := outcomePools.1.take numOutcomes.1,
           totalPool := totalPool.1, totalPositions := totalPositions.1,
           denomination := denomination.1, denominationName := DENOM_MAP denomination.1,
           tokenMint := tokenMint.1, tokenDecimals := tokenDecimals.1,
           hasTransferFee := hasTransferFee.1, transferFeeBps := transferFeeBps.1,
           maxTransferFee := maxTransferFee.1,
           creator := List.replicate 32 0, creatorFeeBps := 0,
           title := decodeFixedString titleBytes.1 titleLen.1,
           description := decodeFixedString descBytes.1 descLen.1,
           outcomeLabels := outcomeLabels }

/-- Decoded UserPosition account. -/
structure UserPositionAccount where
  discriminator : List Nat
  bump : Nat
  market : List Nat
  owner : List Nat
  outcomeIndex : Nat
  amount : Nat
  claimed : Bool
  lastDepositAt : Int
deriving Repr, DecidableEq

/-- `decodeUserPosition` (src/accounts.js lines 231-244). -/
def decodeUserPosition (data : List Nat) : Option UserPositionAccount :=
  obind (readFixedBytes data 0 8) fun disc =>
  obind (readU8 data disc.2) fun bump =>
  obind (readPubkey data bump.2) fun market =>
  obind (readPubkey data market.2) fun owner =>
  obind (readU8 data owner.2) fun outcomeIndex =>
  obind (readU64 data outcomeIndex.2) fun amount =>
  obind (readBool data amount.2) fun claimed =>
  obind (readI64 data claimed.2) fun lastDepositAt =>
  some { discriminator := disc.1, bump := bump.1, market := market.1, owner := owner.1,
         outcomeIndex := outcomeIndex.1, amount := amount.1, claimed := claimed.1,
         lastDepositAt := lastDepositAt.1 }

/-- Decoded ProtocolConfig account. -/
structure ProtocolConfigAccount where
  discriminator : List Nat
  bump : Nat
  admin : List Nat
  defaultFeeBps : Nat
  treasury : List Nat
  paused : Bool
  totalMarketsCreated : Nat
  totalVolume : Nat
deriving Repr, DecidableEq

/-- `decodeProtocolConfig` (src/accounts.js lines 266-279). -/
def decodeProtocolConfig (data : List Nat) : Option ProtocolConfigAccount :=
  obind (readFixedBytes data 0 8) fun disc =>
  obind (readU8 data disc.2) fun bump =>
  obind (readPubkey data bump.2) fun admin =>
  obind (readU16 data admin.2) fun defaultFeeBps =>
  obind (readPubkey data defaultFeeBps.2) fun treasury =>
  obind (readBool data treasury.2) fun paused =>
  obind (readU64 data paused.2) fun totalMarketsCreated =>
  obind (readU64 data totalMarketsCreated.2) fun totalVolume =>
  some { discriminator := disc.1, bump := bump.1, admin := admin.1,
         defaultFeeBps := defaultFeeBps.1, treasury := treasury.1, paused := paused.1,
         totalMarketsCreated := totalMarketsCreated.1, totalVolume := totalVolume.1 }

/-- Decoded MultisigAuthority account. -/
structure MultisigAuthorityAccount where
  discriminator : List Nat
  bump : Nat
  nonce : Nat
  threshold : Nat
  numSigners : Nat
  signers : List (List Nat)
  proposalCount : Nat
deriving Repr, DecidableEq

/-- `decodeMultisigAuthority` (src/accounts.js lines 300-324): reads the
fixed 11-slot signer array, then truncates to `numSigners`. -/
def decodeMultisigAuthority (data : List Nat) : Option MultisigAuthorityAccount :=
  obind (readFixedBytes data 0 8) fun disc =>
  obind (readU8 data disc.2) fun bump =>
  obind (readU64 data bump.2) fun nonce =>
  obind (readU8 data nonce.2) fun threshold =>
  obind (readU8 data threshold.2) fun numSigners =>
  obind (readCount readPubkey data 11 numSigners.2) fun allSigners =>
  obind (readU64 data allSigners.2) fun proposalCount =>
  some { discriminator := disc.1, bump := bump.1, nonce := nonce.1,
         threshold := threshold.1, numSigners := numSigners.1,
         signers := allSigners.1.take numSigners.1, proposalCount := proposalCount.1 }

/-- The 7-variant ProposalAction tagged union (tags 0-6). -/
inductive ProposalAction where
  | resolveMarket (winningOutcome : Nat)
  | voidMarket
  | updateDeadline (newDeadline : Int)
  | updateFeeBps (newFeeBps : Nat)
  | addSigner (newSigner : List Nat)
  | removeSigner (signer : List Nat)
  | changeThreshold (newThreshold : Nat)
deriving Repr, DecidableEq

/-- `decodeProposalAction` (src/accounts.js lines 367-397): reads the tag
byte, dispatches on it, and fails (`throw`) on any tag outside 0-6. -/
def decodeProposalAction (b : List Nat) (off : Nat) : Option (ProposalAction × Nat) :=
  obind (readU8 b off) fun tag =>
  if tag.1 = 0 then
    obind (readU8 b tag.2) fun v => some (ProposalAction.resolveMarket v.1, v.2)
  else if tag.1 = 1 then
    some (ProposalAction.voidMarket, tag.2)
  else if tag.1 = 2 then
    obind (readI64 b tag.2) fun v => some (ProposalAction.updateDeadline v.1, v.2)
  else if tag.1 = 3 then
    obind (readU16 b tag.2) fun v => some (ProposalAction.updateFeeBps v.1, v.2)
  else if tag.1 = 4 then
    obind (readFixedBytes b tag.2 32) fun v => some (ProposalAction.addSigner v.1, v.2)
  else if tag.1 = 5 then
    obind (readFixedBytes b tag.2 32) fun v => some (ProposalAction.removeSigner v.1, v.2)
  else if tag.1 = 6 then
    obind (readU8 b tag.2) fun v => some (ProposalAction.changeThreshold v.1, v.2)
  else
    none

/-- Decoded MultisigProposal account. -/
structure MultisigProposalAccount where
  discriminator : List Nat
  bump : Nat
  multisig : List Nat
  market : List Nat
  proposalId : Nat
  action : ProposalAction
  proposer : List Nat
  approvals : Nat
  approvalCount : Nat
  executed : Bool
  createdAt : Int
deriving Repr, DecidableEq

/-- `decodeMultisigProposal` (src/accounts.js lines 403-419). -/
def decodeMultisigProposal (data : List Nat) : Option MultisigProposalAccount :=
  obind (readFixedBytes data 0 8) fun disc =>
  obind (readU8 data disc.2) fun bump =>
  obind (readPubkey data bump.2) fun multisig =>
  obind (readPubkey data multisig.2) fun market =>
  obind (readU64 data market.2) fun proposalId =>
  obind (decodeProposalAction data proposalId.2) fun action =>
  obind (readPubkey data action.2) fun proposer =>
  obind (readU16 data proposer.2) fun approvals =>
  obind (readU8 data approvals.2) fun approvalCount =>
  obind (readBool data approvalCount.2) fun executed =>
  obind (readI64 data executed.2) fun createdAt =>
  some { discriminator := disc.1, bump := bump.1, multisig := multisig.1,
         market := market.1, proposalId := proposalId.1, action := action.1,
         proposer := proposer.1, approvals := approvals.1,
         approvalCount := approvalCount.1, executed := executed.1,
         createdAt := createdAt.1 }

/-- `decodeMarket` from the earlier SDK revision (src/unnamed/part_000 lines
77-172): identical layout up to `maxTransferFee`, then unconditionally reads
the new-layout `creator` / `creatorFeeBps` block followed by title,
description and outcome labels — no dual-layout probe. -/
def decodeMarketV2 (data : List Nat) : Option MarketAccount :=
  obind (readFixedBytes data 0 8) fun disc =>
  obind (readU8 data disc.2) fun bump =>
  obind (readU64 data bump.2) fun marketId =>
  obind (readPubkey data marketId.2) fun authority =>
  obind (readBool data authority.2) fun authorityIsMultisig =>
  obind (readU8 data authorityIsMultisig.2) fun status =>
  obind (readI64 data status.2) fun resolutionDeadline =>
  obind (readI64 data resolutionDeadline.2) fun resolvedAt =>
  obind (readU8 data resolvedAt.2) fun winningOutcome =>
  obind (readU16 data winningOutcome.2) fun feeBps =>
  obind (readU64 data feeBps.2) fun feesCollected =>
  obind (readU8 data feesCollected.2) fun numOutcomes =>
  obind (readCount readU64 data MAX_OUTCOMES numOutcomes.2) fun outcomePools =>
  obind (readU64 data outcomePools.2) fun totalPool =>
  obind (readU64 data totalPool.2) fun totalPositions =>
  obind (readU8 data totalPositions.2) fun denomination =>
  obind (readPubkey data denomination.2) fun tokenMint =>
  obind (readU8 data tokenMint.2) fun tokenDecimals =>
  obind (readBool data tokenDecimals.2) fun hasTransferFee =>
  obind (readU16 data hasTransferFee.2) fun transferFeeBps =>
  obind (readU64 data transferFeeBps.2) fun maxTransferFee =>
  obind (readPubkey data maxTransferFee.2) fun creator =>
  obind (readU16 data creator.2) fun creatorFeeBps =>
  obind (readFixedBytes data creatorFeeBps.2 MAX_TITLE_LEN) fun titleBytes =>
  obind (readU16 data titleBytes.2) fun titleLen =>
  obind (readFixedBytes data titleLen.2 MAX_DESCRIPTION_LEN) fun descBytes =>
  obind (readU16 data descBytes.2) fun descLen =>
  obind (readCount (fun b i => readFixedBytes b i MAX_OUTCOME_LABEL_LEN)
    data MAX_OUTCOMES descLen.2) fun rawLabels =>
  obind (readCount readU16 data MAX_OUTCOMES rawLabels.2) fun labelLens =>
  obind (buildLabels rawLabels.1 labelLens.1 numOutcomes.1) fun outcomeLabels =>
  some { discriminator := disc.1, bump := bump.1, marketId := marketId.1,
         authority := authority.1, authorityIsMultisig := authorityIsMultisig.1,
         status := status.1, statusName := STATUS_MAP status.1,
         resolutionDeadline := resolutionDeadline.1, resolvedAt := resolvedAt.1,
         winningOutcome := winningOutcome.1, feeBps := feeBps.1,
         feesCollected := feesCollected.1, numOutcomes := numOutcomes.1,
         outcomePools := outcomePools.1.take numOutcomes.1,
         totalPool := totalPool.1, totalPositions := totalPositions.1,
         denomination := denomination.1, denominationName := DENOM_MAP denomination.1,
         tokenMint := tokenMint.1, tokenDecimals := tokenDecimals.1,
         hasTransferFee := hasTransferFee.1, transferFeeBps := transferFeeBps.1,
         maxTransferFee := maxTransferFee.1,
         creator := creator.1, creatorFeeBps := creatorFeeBps.1,
         title := decodeFixedString titleBytes.1 titleLen.1,
         description := decodeFixedString descBytes.1 descLen.1,
         outcomeLabels := outcomeLabels }

-- ═══════════════════════════════════════════════════════════════════════
-- Instruction builders (src/instructions.js)
-- ═══════════════════════════════════════════════════════════════════════

/-- Account reference entry of an instruction. -/
structure AccountMeta where
  pubkey : List Nat
  isSigner : Bool
  isWritable : Bool
deriving Repr, DecidableEq

/-- Built instruction: program id, ordered account references, data payload. -/
structure TransactionInstruction where
  programId : List Nat
  keys : List AccountMeta
  data : List Nat
deriving Repr, DecidableEq

/-- `meta(pubkey, isSigner, isMut)` helper. -/
def meta (pubkey : List Nat) (isSigner : Bool := false) (isMut : Bool := false) :
    AccountMeta :=
  { pubkey, isSigner, isWritable := isMut }

/-- Writable signer. -/
def ws (pubkey : List Nat) : AccountMeta := meta pubkey true true

/-- Read-only signer. -/
def rs (pubkey : List Nat) : AccountMeta := meta pubkey true false

/-- Writable non-signer. -/
def w (pubkey : List Nat) : AccountMeta := meta pubkey false true

/-- Read-only non-signer. -/
def ro (pubkey : List Nat) : AccountMeta := meta pubkey false false

/-- `writeProposalAction` (src/instructions.js lines 56-96): tag byte then
the variant's fields in declaration order. -/
def writeProposalAction (wr : BorshWriter) (action : ProposalAction) :
    Option BorshWriter :=
  match action with
  | ProposalAction.resolveMarket winningOutcome =>
      obind (wr.writeU8 0) fun w1 => w1.writeU8 winningOutcome
  | ProposalAction.voidMarket => wr.writeU8 1
  | ProposalAction.updateDeadline newDeadline =>
      obind (wr.writeU8 2) fun w1 => w1.writeI64 newDeadline
  | ProposalAction.updateFeeBps newFeeBps =>
      obind (wr.writeU8 3) fun w1 => w1.writeU16 newFeeBps
  | ProposalAction.addSigner newSigner =>
      obind (wr.writeU8 4) fun w1 => w1.writeFixedBytes newSigner
  | ProposalAction.removeSigner signer =>
      obind (wr.writeU8 5) fun w1 => w1.writeFixedBytes signer
  | ProposalAction.changeThreshold newThreshold =>
      obind (wr.writeU8 6) fun w1 => w1.writeU8 newThreshold

/-- Accounts accepted by `placeBet`; the four token-related entries are
optional and absent on the native-asset path. -/
structure PlaceBetAccounts where
  market : List Nat
  vault : List Nat
  position : List Nat
  bettor : List Nat
  protocolConfig : List Nat
  bettorTokenAccount : Option (List Nat) := none
  tokenVault : Option (List Nat) := none
  tokenMint : Option (List Nat) := none
  tokenProgram : Option (List Nat) := none
deriving Repr, DecidableEq

/-- `placeBet` (src/instructions.js lines 224-247): payload is the opcode
byte, the outcome index byte, and the 8-byte little-endian amount; the
account list is the fixed native-path prefix, extended by the token suffix
only when `bettorTokenAccount` is supplied. -/
def placeBet (accounts : PlaceBetAccounts) (outcomeIndex : Nat) (amount : Nat)
    (programId : List Nat) : Option TransactionInstruction :=
  obind ((BorshWriter.new 256).writeFixedBytes DISCRIMINATORS.PLACE_BET) fun w1 =>
  obind (w1.writeU8 outcomeIndex) fun w2 =>
  obind (w2.writeU64 amount) fun w3 =>
  let keys := [w accounts.market, w accounts.vault, w accounts.position,
               ws accounts.bettor, ro accounts.protocolConfig, ro SYSTEM_PROGRAM_ID]
  let keys :=
    match accounts.bettorTokenAccount with
    | some bta =>
        keys ++ [w bta, w (accounts.tokenVault.getD []),
                 ro (accounts.tokenMint.getD []), ro (accounts.tokenProgram.getD [])]
    | none => keys
  some { programId, keys, data := w3.toBuffer }

-- ═══════════════════════════════════════════════════════════════════════
-- PrecogMarketsClient.calculatePayout (src/client.js lines 856-862)
-- ═══════════════════════════════════════════════════════════════════════

/-- `calculatePayout(positionAmount, winningPool, totalPool, feeBps)`:
JS bigint division truncates toward zero (`Int.tdiv`); an empty winning
pool throws, which surfaces as `none`. Returns `(gross, fee, net)`. -/
def calculatePayout (positionAmount winningPool totalPool feeBps : Int) :
    Option (Int × Int × Int) :=
  if winningPool = 0 then none
  else
    let gross := Int.tdiv (positionAmount * totalPool) winningPool
    let fee := Int.tdiv (gross * feeBps) 10000
    let net := gross - fee
    some (gross, fee, net)

/-- A reader that always consumes exactly `k` bytes and computes its value
from the buffer and offset (all fixed-width account-field reads). -/
def FixedRead (f : List Nat → Nat → Option (α × Nat)) (k : Nat)
    (val : List Nat → Nat → α) : Prop :=
  ∀ b off, f b off = if off + k ≤ b.length then some (val b off, off + k) else none

-- ═══════════════════════════════════════════════════════════════════════
-- Decoder characterizations
-- ═══════════════════════════════════════════════════════════════════════

/-- Field-by-field view of a UserPosition buffer (layout offsets 0-91). -/
def userPositionOf (b : List Nat) : UserPositionAccount :=
  { discriminator := sliceBytes b 0 8, bump := leSlice b 8 1,
    market := sliceBytes b 9 32, owner := sliceBytes b 41 32,
    outcomeIndex := leSlice b 73 1, amount := leSlice b 74 8,
    claimed := leSlice b 82 1 != 0, lastDepositAt := toI64 (leSlice b 83 8) }

/-- Field-by-field view of a ProtocolConfig buffer (layout offsets 0-92). -/
def protocolConfigOf (b : List Nat) : ProtocolConfigAccount :=
  { discriminator := sliceBytes b 0 8, bump := leSlice b 8 1,
    admin := sliceBytes b 9 32, defaultFeeBps := leSlice b 41 2,
    treasury := sliceBytes b 43 32, paused := leSlice b 75 1 != 0,
    totalMarketsCreated := leSlice b 76 8, totalVolume := leSlice b 84 8 }

/-- Field-by-field view of a MultisigAuthority buffer (layout offsets 0-379,
with the fixed 11-slot signer array truncated to `numSigners`). -/
def multisigAuthorityOf (b : List Nat) : MultisigAuthorityAccount :=
  { discriminator := sliceBytes b 0 8, bump := leSlice b 8 1,
    nonce := leSlice b 9 8, threshold := leSlice b 17 1,
    numSigners := leSlice b 18 1,
    signers := ((List.range 11).map fun i => sliceBytes b (19 + i * 32) 32).take
      (leSlice b 18 1),
    proposalCount := leSlice b 371 8 }

/-- The dual-layout probe of `decodeMarket`, expressed on the raw buffer:
`true` selects the new (creator-block) layout. The speculative new-layout
title length sits at offset 382, the old-layout title length at 348. -/
def marketProbeNew (b : List Nat) : Bool :=
  if leSlice b 382 2 = 0 ∧ 350 ≤ b.length ∧ 0 < leSlice b 348 2 ∧
      leSlice b 348 2 ≤ 128 then false else true

/-- Field-by-field view of a Market buffer under the new (v0.2.0) layout. -/
def newLayoutMarket (b : List Nat) : MarketAccount :=
  { discriminator := sliceBytes b 0 8, bump := leSlice b 8 1,
    marketId := leSlice b 9 8, authority := sliceBytes b 17 32,
    authorityIsMultisig := leSlice b 49 1 != 0,
    status := leSlice b 50 1, statusName := STATUS_MAP (leSlice b 50 1),
    resolutionDeadline := toI64 (leSlice b 51 8), resolvedAt := toI64 (leSlice b 59 8),
    winningOutcome := leSlice b 67 1, feeBps := leSlice b 68 2,
    feesCollected := leSlice b 70 8, numOutcomes := leSlice b 78 1,
    outcomePools := ((List.range 10).map fun i => leSlice b (79 + i * 8) 8).take
      (leSlice b 78 1),
    totalPool := leSlice b 159 8, totalPositions := leSlice b 167 8,
    denomination := leSlice b 175 1, denominationName := DENOM_MAP (leSlice b 175 1),
    tokenMint := sliceBytes b 176 32, tokenDecimals := leSlice b 208 1,
    hasTransferFee := leSlice b 209 1 != 0, transferFeeBps := leSlice b 210 2,
    maxTransferFee := leSlice b 212 8,
    creator := sliceBytes b 220 32, creatorFeeBps := leSlice b 252 2,
    title := decodeFixedString (sliceBytes b 254 128) (leSlice b 382 2),
    description := decodeFixedString (sliceBytes b 384 512) (leSlice b 896 2),
    outcomeLabels := (List.range (leSlice b 78 1)).map fun i =>
      decodeFixedString
        (((List.range 10).map fun j => sliceBytes b (898 + j * 64) 64).getD i [])
        (((List.range 10).map fun j => leSlice b (1538 + j * 2) 2).getD i 0) }

/-- Field-by-field view of a Market buffer under the old (pre-creator) layout:
zero creator, zero creator fee, strings shifted down by 34 bytes. -/
def oldLayoutMarket (b : List Nat) : MarketAccount :=
  { discriminator := sliceBytes b 0 8, bump := leSlice b 8 1,
    marketId := leSlice b 9 8, authority := sliceBytes b 17 32,
    authorityIsMultisig := leSlice b 49 1 != 0,
    status := leSlice b 50 1, statusName := STATUS_MAP (leSlice b 50 1),
    resolutionDeadline := toI64 (leSlice b 51 8), resolvedAt := toI64 (leSlice b 59 8),
    winningOutcome := leSlice b 67 1, feeBps := leSlice b 68 2,
    feesCollected := leSlice b 70 8, numOutcomes := leSlice b 78 1,
    outcomePools := ((List.range 10).map fun i => leSlice b (79 + i * 8) 8).take
      (leSlice b 78 1),
    totalPool := leSlice b 159 8, totalPositions := leSlice b 167 8,
    denomination := leSlice b 175 1, denominationName := DENOM_MAP (leSlice b 175 1),
    tokenMint := sliceBytes b 176 32, tokenDecimals := leSlice b 208 1,
    hasTransferFee := leSlice b 209 1 != 0, transferFeeBps := leSlice b 210 2,
    maxTransferFee := leSlice b 212 8,
    creator := List.replicate 32 0, creatorFeeBps := 0,
    title := decodeFixedString (sliceBytes b 220 128) (leSlice b 348 2),
    description := decodeFixedString (sliceBytes b 350 512) (leSlice b 862 2),
    outcomeLabels := (List.range (leSlice b 78 1)).map fun i =>
      decodeFixedString
        (((List.range 10).map fun j => sliceBytes b (864 + j * 64) 64).getD i [])
        (((List.range 10).map fun j => leSlice b (1504 + j * 2) 2).getD i 0) }

-- ═══════════════════════════════════════════════════════════════════════
-- Writer lemmas
-- ═══════════════════════════════════════════════════════════════════════

/-- Well-formed writer: positive capacity (the JS constructor default is 256;
a zero-capacity writer hangs `_grow`), offset inside the buffer. -/
def WF (wr : BorshWriter) : Prop :=
  0 < wr.buf.length ∧ wr.off ≤ wr.buf.length

-- ═══════════════════════════════════════════════════════════════════════
-- Reader bounds
-- ═══════════════════════════════════════════════════════════════════════

/-- A reader operation whose returned cursor never exceeds the buffer length. -/
def Bounded (f : List Nat → Nat → Option (α × Nat)) : Prop :=
  ∀ b off v o', f b off = some (v, o') → o' ≤ b.length

-- ═══════════════════════════════════════════════════════════════════════
-- Compound round-trip machinery (vec / option elements)
-- ═══════════════════════════════════════════════════════════════════════

/-- An element writer that, on any well-formed writer, emits exactly `bs`. -/
def EmitsVal (g : BorshWriter → α → Option BorshWriter) (x : α) (bs : List Nat) : Prop :=
  ∀ wr, WF wr → ∃ wr', g wr x = some wr' ∧ wr'.toBuffer = wr.toBuffer ++ bs ∧
    wr'.off = wr.off + bs.length ∧ WF wr'

/-- An element reader that recovers `x` from the bytes `bs` in any context. -/
def ReadsBack (rd : List Nat → Nat → Option (α × Nat)) (x : α) (bs : List Nat) : Prop :=
  ∀ pre suf, rd (pre ++ bs ++ suf) pre.length = some (x, pre.length + bs.length)

/-- A writer step that never disturbs the bytes already written below the
starting offset and never moves the cursor backwards. -/
def FramePreserving (g : BorshWriter → Option BorshWriter) : Prop :=
  ∀ wr wr', WF wr → g wr = some wr' →
    wr'.toBuffer.take wr.off = wr.toBuffer ∧ wr.off ≤ wr'.off ∧ WF wr'

/-- Field ranges of each ProposalAction variant (u8 / i64 / u16 fields in
range, 32-byte signer keys). -/
def actionWF : ProposalAction → Prop
  | ProposalAction.resolveMarket w => w < 2 ^ 8
  | ProposalAction.voidMarket => True
  | ProposalAction.updateDeadline d => -(2 ^ 63) ≤ d ∧ d < 2 ^ 63
  | ProposalAction.updateFeeBps f => f < 2 ^ 16
  | ProposalAction.addSigner s => s.length = 32
  | ProposalAction.removeSigner s => s.length = 32
  | ProposalAction.changeThreshold t => t < 2 ^ 8

theorem leBytes_length (n v : Nat) : (leBytes n v).length = n := by
  induction n generalizing v with
  | zero => rfl
  | succ n ih => simp [leBytes, ih]

theorem leVal_leBytes (n v : Nat) (h : v < 256 ^ n) : leVal (leBytes n v) = v := by
  induction n generalizing v with
  | zero => simp [leBytes, leVal]; omega
  | succ n ih =>
    simp only [leBytes, leVal]
    rw [ih]
    · omega
    · have : 256 ^ (n + 1) = 256 ^ n * 256 := by ring
      omega

-- ═══════════════════════════════════════════════════════════════════════
-- Reader characterization lemmas
-- ═══════════════════════════════════════════════════════════════════════

theorem obind_eq_some {x : Option α} {f : α → Option β} {b : β} :
    obind x f = some b ↔ ∃ a, x = some a ∧ f a = some b := by
  simp [obind, Option.bind_eq_some]

theorem obind_some {a : α} {f : α → Option β} : obind (some a) f = f a := rfl

theorem obind_none {f : α → Option β} : obind none f = none := rfl

theorem readFixedBytes_eq_some {b : List Nat} {off n : Nat} {p : List Nat × Nat} :
    readFixedBytes b off n = some p ↔
      p = (sliceBytes b off n, off + n) ∧ off + n ≤ b.length := by
  rw [readFixedBytes]
  split
  · rename_i h; simp [h, eq_comm]
  · rename_i h; simp; intro h1; omega

theorem readUIntLE_eq_some {b : List Nat} {off n : Nat} {p : Nat × Nat} :
    readUIntLE b off n = some p ↔
      p = (leSlice b off n, off + n) ∧ off + n ≤ b.length := by
  rw [readUIntLE]
  split
  · rename_i h; simp [h, eq_comm]
  · rename_i h; simp; intro h1; omega

theorem readU8_eq_some {b : List Nat} {off : Nat} {p : Nat × Nat} :
    readU8 b off = some p ↔ p = (leSlice b off 1, off + 1) ∧ off + 1 ≤ b.length := by
  rw [readU8, readUIntLE_eq_some]

theorem readU16_eq_some {b : List Nat} {off : Nat} {p : Nat × Nat} :
    readU16 b off = some p ↔ p = (leSlice b off 2, off + 2) ∧ off + 2 ≤ b.length := by
  rw [readU16, readUIntLE_eq_some]

theorem readU32_eq_some {b : List Nat} {off : Nat} {p : Nat × Nat} :
    readU32 b off = some p ↔ p = (leSlice b off 4, off + 4) ∧ off + 4 ≤ b.length := by
  rw [readU32, readUIntLE_eq_some]

theorem readU64_eq_some {b : List Nat} {off : Nat} {p : Nat × Nat} :
    readU64 b off = some p ↔ p = (leSlice b off 8, off + 8) ∧ off + 8 ≤ b.length := by
  rw [readU64, readUIntLE_eq_some]

theorem readI64_eq_some {b : List Nat} {off : Nat} {p : Int × Nat} :
    readI64 b off = some p ↔
      p = (toI64 (leSlice b off 8), off + 8) ∧ off + 8 ≤ b.length := by
  rw [readI64, readUIntLE]
  split
  · rename_i h; simp [h, eq_comm]
  · rename_i h; simp; intro h1; omega

theorem readBool_eq_some {b : List Nat} {off : Nat} {p : Bool × Nat} :
    readBool b off = some p ↔
      p = (leSlice b off 1 != 0, off + 1) ∧ off + 1 ≤ b.length := by
  rw [readBool, readU8, readUIntLE]
  split
  · rename_i h; simp [h, eq_comm]
  · rename_i h; simp; intro h1; omega

theorem readPubkey_eq_some {b : List Nat} {off : Nat} {p : List Nat × Nat} :
    readPubkey b off = some p ↔
      p = (sliceBytes b off 32, off + 32) ∧ off + 32 ≤ b.length := by
  rw [readPubkey, readFixedBytes_eq_some]

theorem readU16_fixedRead : FixedRead readU16 2 (fun b off => leSlice b off 2) := by
  intro b off; rw [readU16, readUIntLE]

theorem readU64_fixedRead : FixedRead readU64 8 (fun b off => leSlice b off 8) := by
  intro b off; rw [readU64, readUIntLE]

theorem readPubkey_fixedRead : FixedRead readPubkey 32 (fun b off => sliceBytes b off 32) := by
  intro b off; rw [readPubkey, readFixedBytes]

theorem readLabelBytes_fixedRead :
    FixedRead (fun b i => readFixedBytes b i 64) 64
      (fun b off => sliceBytes b off 64) := by
  intro b off; simp only []; rw [readFixedBytes]

theorem some_bind_eq {α β : Type u} {a : α} {f : α → Option β} :
    (some a >>= f) = f a := rfl

theorem readCount_fixed {f : List Nat → Nat → Option (α × Nat)} {k : Nat}
    {val : List Nat → Nat → α} (hf : FixedRead f k val) (n : Nat) (b : List Nat)
    (off : Nat) :
    readCount f b n off =
      if off + n * k ≤ b.length ∨ n = 0 then
        some ((List.range n).map fun i => val b (off + i * k), off + n * k)
      else none := by
  induction n generalizing off with
  | zero => simp [readCount]
  | succ n ih =>
    rw [readCount, hf b off]
    by_cases h1 : off + k ≤ b.length
    · rw [if_pos h1]
      simp only [obind_some]
      rw [ih (off + k)]
      by_cases h2 : off + k + n * k ≤ b.length ∨ n = 0
      · rw [if_pos h2]
        simp only [obind_some]
        have hc : off + (n + 1) * k ≤ b.length ∨ n + 1 = 0 := by
          rcases h2 with h2 | h2
          · left; have : (n + 1) * k = k + n * k := by ring
            omega
          · subst h2; left; simpa using h1
        rw [if_pos hc]
        simp only [Option.some.injEq, Prod.mk.injEq]
        constructor
        · rw [List.range_succ_eq_map, List.map_cons, List.map_map]
          congr 1
          · simp
          · apply List.map_congr_left
            intro i _
            simp only [Function.comp_apply]
            congr 1
            simp only [Nat.succ_eq_add_one]
            ring
        · have : (n + 1) * k = k + n * k := by ring
          omega
      · rw [if_neg h2]
        have hc : ¬(off + (n + 1) * k ≤ b.length ∨ n + 1 = 0) := by
          push_neg
          constructor
          · push_neg at h2
            have : (n + 1) * k = k + n * k := by ring
            omega
          · omega
        rw [if_neg hc]
        simp [obind_some, obind_none]
    · rw [if_neg h1]
      have hc : ¬(off + (n + 1) * k ≤ b.length ∨ n + 1 = 0) := by
        push_neg
        constructor
        · have : (n + 1) * k = k + n * k := by ring
          omega
        · omega
      rw [if_neg hc]
      simp [obind_some, obind_none]

theorem readCount_eq_some {f : List Nat → Nat → Option (α × Nat)} {k : Nat}
    {val : List Nat → Nat → α} (hf : FixedRead f k val) {n : Nat} {b : List Nat}
    {off : Nat} {p : List α × Nat} :
    readCount f b n off = some p ↔
      p = ((List.range n).map fun i => val b (off + i * k), off + n * k) ∧
        (off + n * k ≤ b.length ∨ n = 0) := by
  rw [readCount_fixed hf]
  split
  · rename_i h; simp [h, eq_comm]
  · rename_i h; push_neg at h; simp [h.1, h.2]

theorem mapM_range_eq_some {f : Nat → Option α} {g : Nat → α} {n : Nat}
    (h : ∀ i, i < n → f i = some (g i)) :
    (List.range n).mapM f = some ((List.range n).map g) := by
  induction n with
  | zero => rfl
  | succ n ih =>
    rw [List.range_succ, List.mapM_append, ih (fun i hi => h i (by omega))]
    simp [List.mapM.loop, h n (by omega)]

theorem buildLabels_eq_some {raws : List (List Nat)} {lens : List Nat} {n : Nat}
    (h1 : n ≤ raws.length) (h2 : n ≤ lens.length) :
    buildLabels raws lens n =
      some ((List.range n).map fun i =>
        decodeFixedString (raws.getD i []) (lens.getD i 0)) := by
  rw [buildLabels]
  apply mapM_range_eq_some
  intro i hi
  have hr : raws[i]? = some (raws.getD i []) := by
    rw [List.getElem?_eq_getElem (by omega), List.getD_eq_getElem _ _ (by omega)]
  have hl : lens[i]? = some (lens.getD i 0) := by
    rw [List.getElem?_eq_getElem (by omega), List.getD_eq_getElem _ _ (by omega)]
  rw [hr, hl]
  rfl

theorem mapM_isSome_of_eq_some {α β : Type} {f : α → Option β} {l : List α}
    {ys : List β} (h : l.mapM f = some ys) : ∀ x ∈ l, (f x).isSome := by
  induction l generalizing ys with
  | nil => simp
  | cons a l ih =>
    rw [List.mapM_cons] at h
    cases hfa : f a with
    | none => rw [hfa] at h; simp at h
    | some v =>
      rw [hfa] at h
      cases hml : l.mapM f with
      | none => rw [hml] at h; simp at h
      | some ys' =>
        intro x hx
        rcases List.mem_cons.1 hx with hx | hx
        · subst hx; simp [hfa]
        · exact ih hml x hx

theorem buildLabels_eq_some_iff {raws : List (List Nat)} {lens : List Nat} {n : Nat}
    {ls : List (List Nat)} :
    buildLabels raws lens n = some ls ↔
      n ≤ raws.length ∧ n ≤ lens.length ∧
        ls = (List.range n).map fun i =>
          decodeFixedString (raws.getD i []) (lens.getD i 0) := by
  constructor
  · intro h
    have h1 : n ≤ raws.length := by
      by_contra hgt
      push_neg at hgt
      have hs := mapM_isSome_of_eq_some h raws.length (by simp [hgt])
      rw [List.getElem?_eq_none (le_refl _)] at hs
      simp at hs
    have h2 : n ≤ lens.length := by
      by_contra hgt
      push_neg at hgt
      have hs := mapM_isSome_of_eq_some h lens.length (by simp [hgt])
      rw [List.getElem?_eq_none (le_refl _)] at hs
      rcases hr : (raws[lens.length]? : Option (List Nat)) with _ | r <;>
        simp [buildLabels, hr] at hs
    refine ⟨h1, h2, ?_⟩
    rw [buildLabels_eq_some h1 h2] at h
    simpa [eq_comm] using h
  · rintro ⟨h1, h2, rfl⟩
    exact buildLabels_eq_some h1 h2

theorem decodeUserPosition_eq_some {b : List Nat} {m : UserPositionAccount} :
    decodeUserPosition b = some m ↔ 91 ≤ b.length ∧ m = userPositionOf b := by
  simp only [decodeUserPosition, obind_eq_some, readFixedBytes_eq_some, readU8_eq_some,
    readPubkey_eq_some, readU64_eq_some, readBool_eq_some, readI64_eq_some,
    and_assoc, exists_eq_left, Option.some.injEq]
  constructor
  · rintro ⟨h1, h2, h3, h4, h5, h6, h7, h8, hm⟩
    exact ⟨by omega, by rw [userPositionOf]; exact hm.symm⟩
  · rintro ⟨hlen, rfl⟩
    refine ⟨by omega, by omega, by omega, by omega, by omega, by omega, by omega,
      by omega, ?_⟩
    rw [userPositionOf]

theorem decodeProtocolConfig_eq_some {b : List Nat} {m : ProtocolConfigAccount} :
    decodeProtocolConfig b = some m ↔ 92 ≤ b.length ∧ m = protocolConfigOf b := by
  simp only [decodeProtocolConfig, obind_eq_some, readFixedBytes_eq_some, readU8_eq_some,
    readPubkey_eq_some, readU16_eq_some, readU64_eq_some, readBool_eq_some,
    and_assoc, exists_eq_left, Option.some.injEq]
  constructor
  · rintro ⟨h1, h2, h3, h4, h5, h6, h7, h8, hm⟩
    exact ⟨by omega, by rw [protocolConfigOf]; exact hm.symm⟩
  · rintro ⟨hlen, rfl⟩
    refine ⟨by omega, by omega, by omega, by omega, by omega, by omega, by omega,
      by omega, ?_⟩
    rw [protocolConfigOf]

theorem decodeMultisigAuthority_eq_some {b : List Nat} {m : MultisigAuthorityAccount} :
    decodeMultisigAuthority b = some m ↔ 379 ≤ b.length ∧ m = multisigAuthorityOf b := by
  simp only [decodeMultisigAuthority, obind_eq_some, readFixedBytes_eq_some,
    readU8_eq_some, readU64_eq_some, readCount_eq_some readPubkey_fixedRead,
    and_assoc, exists_eq_left, Option.some.injEq]
  constructor
  · rintro ⟨h1, h2, h3, h4, h5, h6, h7, hm⟩
    exact ⟨by omega, by rw [multisigAuthorityOf]; exact hm.symm⟩
  · rintro ⟨hlen, rfl⟩
    refine ⟨by omega, by omega, by omega, by omega, by omega, by omega, by omega, ?_⟩
    rw [multisigAuthorityOf]

theorem buildLabels_eq_some' {raws : List (List Nat)} {lens : List Nat} {n : Nat}
    {ls : List (List Nat)} :
    buildLabels raws lens n = some ls ↔
      ls = ((List.range n).map fun i =>
          decodeFixedString (raws.getD i []) (lens.getD i 0)) ∧
        n ≤ raws.length ∧ n ≤ lens.length := by
  rw [buildLabels_eq_some_iff]; tauto

theorem decodeMarket_eq_some {b : List Nat} {m : MarketAccount} :
    decodeMarket b = some m ↔
      (marketProbeNew b = true ∧ 1558 ≤ b.length ∧ leSlice b 78 1 ≤ 10 ∧
        m = newLayoutMarket b) ∨
      (marketProbeNew b = false ∧ 1524 ≤ b.length ∧ leSlice b 78 1 ≤ 10 ∧
        m = oldLayoutMarket b) := by
  rw [decodeMarket]
  by_cases hp : (leSlice b 382 2 = 0 ∧ 350 ≤ b.length ∧ 0 < leSlice b 348 2 ∧
      leSlice b 348 2 ≤ 128)
  · simp only [MAX_OUTCOMES, MAX_TITLE_LEN, MAX_DESCRIPTION_LEN, MAX_OUTCOME_LABEL_LEN,
      marketProbeNew, obind_eq_some, readFixedBytes_eq_some, readU8_eq_some,
      readU16_eq_some, readU64_eq_some, readPubkey_eq_some, readBool_eq_some,
      readI64_eq_some, readCount_eq_some readU64_fixedRead,
      readCount_eq_some readU16_fixedRead, readCount_eq_some readLabelBytes_fixedRead,
      buildLabels_eq_some', List.length_map, List.length_range, and_assoc,
      exists_eq_left, Option.some.injEq, hp, Nat.reduceAdd, Nat.reduceMul,
      Nat.reduceEqDiff, and_self, and_true, true_and, or_false, false_or,
      reduceIte, Bool.false_eq_true, Bool.true_eq_false, if_true, if_false, false_and,
      true_or, newLayoutMarket, oldLayoutMarket]
    constructor
    · rintro ⟨-, -, -, -, -, -, -, -, -, -, -, -, -, -, -, -, -, -, -, -, -, -, -, -,
        -, -, -, -, -, h1524, hn, -, hm⟩
      exact ⟨h1524, hn, hm.symm⟩
    · rintro ⟨h1524, hn, rfl⟩
      repeat' apply And.intro
      all_goals first | rfl | omega | exact hn
  · simp only [MAX_OUTCOMES, MAX_TITLE_LEN, MAX_DESCRIPTION_LEN, MAX_OUTCOME_LABEL_LEN,
      marketProbeNew, obind_eq_some, readFixedBytes_eq_some, readU8_eq_some,
      readU16_eq_some, readU64_eq_some, readPubkey_eq_some, readBool_eq_some,
      readI64_eq_some, readCount_eq_some readU64_fixedRead,
      readCount_eq_some readU16_fixedRead, readCount_eq_some readLabelBytes_fixedRead,
      buildLabels_eq_some', List.length_map, List.length_range, and_assoc,
      exists_eq_left, Option.some.injEq, hp, Nat.reduceAdd, Nat.reduceMul,
      Nat.reduceEqDiff, and_self, and_true, true_and, or_false, false_or,
      reduceIte, Bool.false_eq_true, Bool.true_eq_false, if_true, if_false, false_and,
      true_or, newLayoutMarket, oldLayoutMarket]
    constructor
    · rintro ⟨-, -, -, -, -, -, -, -, -, -, -, -, -, -, -, -, -, -, -, -, -, -, -, -,
        -, -, -, -, h1558, hn, -, hm⟩
      exact ⟨h1558, hn, hm.symm⟩
    · rintro ⟨h1558, hn, rfl⟩
      repeat' apply And.intro
      all_goals first | rfl | omega | exact hn

theorem decodeMarketV2_eq_some {b : List Nat} {m : MarketAccount} :
    decodeMarketV2 b = some m ↔
      1558 ≤ b.length ∧ leSlice b 78 1 ≤ 10 ∧ m = newLayoutMarket b := by
  rw [decodeMarketV2]
  simp only [MAX_OUTCOMES, MAX_TITLE_LEN, MAX_DESCRIPTION_LEN, MAX_OUTCOME_LABEL_LEN,
    obind_eq_some, readFixedBytes_eq_some, readU8_eq_some, readU16_eq_some,
    readU64_eq_some, readPubkey_eq_some, readBool_eq_some, readI64_eq_some,
    readCount_eq_some readU64_fixedRead, readCount_eq_some readU16_fixedRead,
    readCount_eq_some readLabelBytes_fixedRead, buildLabels_eq_some',
    List.length_map, List.length_range, and_assoc, exists_eq_left, Option.some.injEq,
    Nat.reduceAdd, Nat.reduceMul, Nat.reduceEqDiff, and_self, and_true, true_and,
    or_false, false_or, newLayoutMarket]
  constructor
  · rintro ⟨-, -, -, -, -, -, -, -, -, -, -, -, -, -, -, -, -, -, -, -, -, -, -, -,
      -, -, -, -, h1558, hn, -, hm⟩
    exact ⟨h1558, hn, hm.symm⟩
  · rintro ⟨h1558, hn, rfl⟩
    repeat' apply And.intro
    all_goals first | rfl | omega | exact hn

theorem growLoop_some_of {fuel len target : Nat} (h : target ≤ 2 ^ fuel * len) :
    ∃ L, growLoop fuel len target = some L ∧ target ≤ L ∧ len ≤ L := by
  induction fuel generalizing len with
  | zero =>
    simp only [pow_zero, one_mul] at h
    exact ⟨len, by simp [growLoop, h], h, le_refl _⟩
  | succ f ih =>
    by_cases h0 : target ≤ len
    · exact ⟨len, by simp [growLoop, h0], h0, le_refl _⟩
    · have h2 : target ≤ 2 ^ f * (2 * len) := by
        rw [pow_succ, mul_assoc] at h; exact h
      rcases ih h2 with ⟨L, hL, h3, h4⟩
      exact ⟨L, by simp [growLoop, h0, hL], h3, by omega⟩

theorem writeBytesAt_spec {wr : BorshWriter} (bs : List Nat) (h : WF wr) :
    ∃ wr', wr.writeBytesAt bs = some wr' ∧ wr'.toBuffer = wr.toBuffer ++ bs ∧
      wr'.off = wr.off + bs.length ∧ WF wr' := by
  rcases h with ⟨hpos, hoff⟩
  have htarget : wr.off + bs.length ≤ 2 ^ (wr.off + bs.length + 1) * wr.buf.length := by
    calc wr.off + bs.length ≤ 2 ^ (wr.off + bs.length + 1) :=
          le_of_lt (by exact lt_trans (Nat.lt_two_pow _) (by
            apply Nat.pow_lt_pow_right (by omega) (by omega)))
      _ ≤ 2 ^ (wr.off + bs.length + 1) * wr.buf.length := by
          exact Nat.le_mul_of_pos_right _ hpos
  rcases growLoop_some_of htarget with ⟨L, hL, hT, hlen⟩
  have hbuf : wr.grow bs.length = some (wr.buf ++ List.replicate (L - wr.buf.length) 0) := by
    rw [BorshWriter.grow, hL]; rfl
  set buf' := wr.buf ++ List.replicate (L - wr.buf.length) 0 with hbuf'
  have hlen' : buf'.length = L := by
    simp [hbuf']; omega
  refine ⟨⟨setBytes buf' wr.off bs, wr.off + bs.length⟩, ?_, ?_, rfl, ?_⟩
  · rw [BorshWriter.writeBytesAt, hbuf]; rfl
  · show (setBytes buf' wr.off bs).take (wr.off + bs.length) = wr.buf.take wr.off ++ bs
    rw [setBytes]
    have hA : buf'.take wr.off = wr.buf.take wr.off := by
      rw [hbuf', List.take_append_of_le_length hoff]
    rw [List.take_left' (by rw [List.length_append, List.length_take]; omega), hA]
  · constructor
    · show 0 < (setBytes buf' wr.off bs).length
      rw [setBytes]; simp [hlen']; omega
    · show wr.off + bs.length ≤ (setBytes buf' wr.off bs).length
      rw [setBytes]; simp [hlen']; omega

theorem toBuffer_length {wr : BorshWriter} (h : WF wr) : wr.toBuffer.length = wr.off := by
  rcases h with ⟨h1, h2⟩
  rw [BorshWriter.toBuffer, List.length_take]
  omega

theorem writeU8_spec {wr : BorshWriter} {v : Nat} (h : WF wr) (hv : v < 2 ^ 8) :
    ∃ wr', wr.writeU8 v = some wr' ∧ wr'.toBuffer = wr.toBuffer ++ [v] ∧
      wr'.off = wr.off + 1 ∧ WF wr' := by
  rw [BorshWriter.writeU8, if_pos hv]
  simpa using writeBytesAt_spec [v] h

theorem writeU16_spec {wr : BorshWriter} {v : Nat} (h : WF wr) (hv : v < 2 ^ 16) :
    ∃ wr', wr.writeU16 v = some wr' ∧ wr'.toBuffer = wr.toBuffer ++ leBytes 2 v ∧
      wr'.off = wr.off + 2 ∧ WF wr' := by
  rw [BorshWriter.writeU16, if_pos hv]
  simpa [leBytes_length] using writeBytesAt_spec (leBytes 2 v) h

theorem writeU32_spec {wr : BorshWriter} {v : Nat} (h : WF wr) (hv : v < 2 ^ 32) :
    ∃ wr', wr.writeU32 v = some wr' ∧ wr'.toBuffer = wr.toBuffer ++ leBytes 4 v ∧
      wr'.off = wr.off + 4 ∧ WF wr' := by
  rw [BorshWriter.writeU32, if_pos hv]
  simpa [leBytes_length] using writeBytesAt_spec (leBytes 4 v) h

theorem writeU64_spec {wr : BorshWriter} {v : Nat} (h : WF wr) (hv : v < 2 ^ 64) :
    ∃ wr', wr.writeU64 v = some wr' ∧ wr'.toBuffer = wr.toBuffer ++ leBytes 8 v ∧
      wr'.off = wr.off + 8 ∧ WF wr' := by
  rw [BorshWriter.writeU64, if_pos hv]
  simpa [leBytes_length] using writeBytesAt_spec (leBytes 8 v) h

theorem writeI64_spec {wr : BorshWriter} {v : Int} (h : WF wr)
    (hv : -(2 ^ 63) ≤ v ∧ v < 2 ^ 63) :
    ∃ wr', wr.writeI64 v = some wr' ∧
      wr'.toBuffer = wr.toBuffer ++ leBytes 8 (v % (2 ^ 64)).toNat ∧
      wr'.off = wr.off + 8 ∧ WF wr' := by
  rcases writeBytesAt_spec (leBytes 8 (v % (2 ^ 64)).toNat) h with ⟨wr', h1, h2, h3, h4⟩
  exact ⟨wr', by rw [BorshWriter.writeI64, if_pos hv]; exact h1, h2,
    by rw [h3, leBytes_length], h4⟩

theorem writeBool_spec {wr : BorshWriter} {v : Bool} (h : WF wr) :
    ∃ wr', wr.writeBool v = some wr' ∧
      wr'.toBuffer = wr.toBuffer ++ [if v then 1 else 0] ∧
      wr'.off = wr.off + 1 ∧ WF wr' := by
  rw [BorshWriter.writeBool]
  exact writeU8_spec h (by cases v <;> norm_num)

theorem writeFixedBytes_spec {wr : BorshWriter} {bs : List Nat} (h : WF wr) :
    ∃ wr', wr.writeFixedBytes bs = some wr' ∧ wr'.toBuffer = wr.toBuffer ++ bs ∧
      wr'.off = wr.off + bs.length ∧ WF wr' := by
  rw [BorshWriter.writeFixedBytes]
  exact writeBytesAt_spec bs h

theorem writeString_spec {wr : BorshWriter} {s : List Nat} (h : WF wr)
    (hs : s.length < 2 ^ 32) :
    ∃ wr', wr.writeString s = some wr' ∧
      wr'.toBuffer = wr.toBuffer ++ leBytes 4 s.length ++ s ∧
      wr'.off = wr.off + 4 + s.length ∧ WF wr' := by
  rcases writeU32_spec h hs with ⟨w1, hw1, hb1, ho1, hWF1⟩
  rcases writeBytesAt_spec s hWF1 with ⟨w2, hw2, hb2, ho2, hWF2⟩
  refine ⟨w2, ?_, ?_, ?_, hWF2⟩
  · rw [BorshWriter.writeString, hw1, some_bind_eq, hw2]
  · rw [hb2, hb1]
  · omega

-- ═══════════════════════════════════════════════════════════════════════
-- Read-back lemmas (decoding the bytes a write just emitted)
-- ═══════════════════════════════════════════════════════════════════════

theorem sliceBytes_pre {pre bs suf : List Nat} :
    sliceBytes (pre ++ bs ++ suf) pre.length bs.length = bs := by
  rw [sliceBytes, List.append_assoc, List.drop_left, List.take_left]

theorem readFixedBytes_pre {pre bs suf : List Nat} :
    readFixedBytes (pre ++ bs ++ suf) pre.length bs.length =
      some (bs, pre.length + bs.length) := by
  rw [readFixedBytes, if_pos (by simp), sliceBytes_pre]

theorem readUIntLE_pre {pre suf : List Nat} {n v : Nat} (hv : v < 256 ^ n) :
    readUIntLE (pre ++ leBytes n v ++ suf) pre.length n =
      some (v, pre.length + n) := by
  rw [readUIntLE, if_pos (by simp [leBytes_length])]
  have : sliceBytes (pre ++ leBytes n v ++ suf) pre.length n =
      sliceBytes (pre ++ leBytes n v ++ suf) pre.length (leBytes n v).length := by
    rw [leBytes_length]
  rw [leSlice, this, sliceBytes_pre, leVal_leBytes _ _ hv]

theorem leVal_singleton {x : Nat} : leVal [x] = x := by
  simp [leVal]

theorem readU8_pre {pre suf : List Nat} {x : Nat} :
    readU8 (pre ++ [x] ++ suf) pre.length = some (x, pre.length + 1) := by
  rw [readU8, readUIntLE, if_pos (by simp)]
  have : sliceBytes (pre ++ [x] ++ suf) pre.length 1 =
      sliceBytes (pre ++ [x] ++ suf) pre.length ([x] : List Nat).length := by simp
  rw [leSlice, this, sliceBytes_pre, leVal_singleton]

theorem readU16_pre {pre suf : List Nat} {v : Nat} (hv : v < 2 ^ 16) :
    readU16 (pre ++ leBytes 2 v ++ suf) pre.length = some (v, pre.length + 2) := by
  rw [readU16]; exact readUIntLE_pre (by norm_num at hv ⊢; omega)

theorem readU32_pre {pre suf : List Nat} {v : Nat} (hv : v < 2 ^ 32) :
    readU32 (pre ++ leBytes 4 v ++ suf) pre.length = some (v, pre.length + 4) := by
  rw [readU32]; exact readUIntLE_pre (by norm_num at hv ⊢; omega)

theorem readU64_pre {pre suf : List Nat} {v : Nat} (hv : v < 2 ^ 64) :
    readU64 (pre ++ leBytes 8 v ++ suf) pre.length = some (v, pre.length + 8) := by
  rw [readU64]; exact readUIntLE_pre (by norm_num at hv ⊢; omega)

theorem toI64_emod {v : Int} (hv : -(2 ^ 63) ≤ v ∧ v < 2 ^ 63) :
    toI64 (v % (2 ^ 64)).toNat = v := by
  have hpow : (2 : Int) ^ 64 = 18446744073709551616 := by norm_num
  have hpow2 : (2 : Nat) ^ 63 = 9223372036854775808 := by norm_num
  have hpow3 : (2 : Int) ^ 63 = 9223372036854775808 := by norm_num
  rw [toI64, hpow, hpow2]
  rw [hpow3] at hv
  split <;> rename_i h <;> omega

theorem readI64_pre {pre suf : List Nat} {v : Int} (hv : -(2 ^ 63) ≤ v ∧ v < 2 ^ 63) :
    readI64 (pre ++ leBytes 8 (v % (2 ^ 64)).toNat ++ suf) pre.length =
      some (v, pre.length + 8) := by
  rw [readI64, readUIntLE_pre (by
    have h1 : (256 : Nat) ^ 8 = 18446744073709551616 := by norm_num
    have h2 : (2 : Int) ^ 64 = 18446744073709551616 := by norm_num
    rw [h1, h2]
    omega)]
  have h3 := toI64_emod hv
  norm_num at h3 ⊢
  simp [h3]

theorem readBool_pre {pre suf : List Nat} {v : Bool} :
    readBool (pre ++ [if v then 1 else 0] ++ suf) pre.length =
      some (v, pre.length + 1) := by
  rw [readBool, readU8_pre]
  cases v <;> simp

theorem readFixedBytes_bounded {n : Nat} : Bounded (fun b off => readFixedBytes b off n) := by
  intro b off v o' h
  simp only [readFixedBytes_eq_some, Prod.mk.injEq] at h
  omega

theorem readUIntLE_bounded {n : Nat} : Bounded (fun b off => readUIntLE b off n) := by
  intro b off v o' h
  simp only [readUIntLE_eq_some, Prod.mk.injEq] at h
  omega

theorem readString_bounded : Bounded readString := by
  intro b off v o' h
  rw [readString] at h
  simp only [obind_eq_some, readU32_eq_some, readFixedBytes_eq_some, and_assoc,
    exists_eq_left, Option.some.injEq, Prod.mk.injEq] at h
  omega

theorem readCount_bounded {f : List Nat → Nat → Option (α × Nat)} (hf : Bounded f) :
    ∀ (n : Nat) (b : List Nat) (off : Nat) (vs : List α) (o' : Nat), off ≤ b.length →
      readCount f b n off = some (vs, o') → o' ≤ b.length := by
  intro n
  induction n with
  | zero =>
    intro b off vs o' hoff h
    simp only [readCount, Option.some.injEq, Prod.mk.injEq] at h
    omega
  | succ n ih =>
    intro b off vs o' hoff h
    rw [readCount] at h
    rcases hfa : f b off with _ | p
    · rw [hfa, obind_none] at h; simp at h
    · rw [hfa, obind_some] at h
      rcases hrc : readCount f b n p.2 with _ | q
      · rw [hrc, obind_none] at h; simp at h
      · rw [hrc, obind_some] at h
        simp only [Option.some.injEq, Prod.mk.injEq] at h
        have hp : p.2 ≤ b.length := hf b off p.1 p.2 (by rw [hfa])
        have := ih b p.2 q.1 q.2 hp (by rw [hrc])
        omega

theorem foldlM_emits {g : BorshWriter → α → Option BorshWriter} {xs : List α}
    {enc : α → List Nat} (h : ∀ x ∈ xs, EmitsVal g x (enc x)) :
    ∀ wr, WF wr → ∃ wr', xs.foldlM g wr = some wr' ∧
      wr'.toBuffer = wr.toBuffer ++ (xs.map enc).flatten ∧
      wr'.off = wr.off + ((xs.map enc).flatten).length ∧ WF wr' := by
  induction xs with
  | nil =>
    intro wr hwr
    exact ⟨wr, rfl, by simp, by simp, hwr⟩
  | cons x xs ih =>
    intro wr hwr
    rcases h x (List.mem_cons_self _ _) wr hwr with ⟨w1, hw1, hb1, ho1, hWF1⟩
    rcases ih (fun y hy => h y (List.mem_cons_of_mem _ hy)) w1 hWF1 with
      ⟨w2, hw2, hb2, ho2, hWF2⟩
    refine ⟨w2, ?_, ?_, ?_, hWF2⟩
    · rw [List.foldlM_cons, hw1, some_bind_eq, hw2]
    · rw [hb2, hb1, List.map_cons, List.flatten_cons, List.append_assoc]
    · rw [ho2, ho1, List.map_cons, List.flatten_cons]
      simp
      omega

theorem readCount_readsBack {rd : List Nat → Nat → Option (α × Nat)} {xs : List α}
    {enc : α → List Nat} (h : ∀ x ∈ xs, ReadsBack rd x (enc x)) :
    ∀ pre suf, readCount rd (pre ++ (xs.map enc).flatten ++ suf) xs.length pre.length =
      some (xs, pre.length + ((xs.map enc).flatten).length) := by
  induction xs with
  | nil =>
    intro pre suf
    simp [readCount]
  | cons x xs ih =>
    intro pre suf
    have hx := h x (List.mem_cons_self _ _) pre ((xs.map enc).flatten ++ suf)
    have hshape : pre ++ ((x :: xs).map enc).flatten ++ suf =
        pre ++ enc x ++ ((xs.map enc).flatten ++ suf) := by
      simp [List.flatten_cons]
    rw [List.length_cons, readCount, hshape, hx, obind_some]
    have hshape2 : pre ++ enc x ++ ((xs.map enc).flatten ++ suf) =
        (pre ++ enc x) ++ (xs.map enc).flatten ++ suf := by
      simp
    have ihx := ih (fun y hy => h y (List.mem_cons_of_mem _ hy)) (pre ++ enc x) suf
    rw [show pre.length + (enc x).length = (pre ++ enc x).length by simp] at *
    rw [hshape2, ihx, obind_some]
    simp
    omega

theorem readString_pre {pre suf s : List Nat} (hs : s.length < 2 ^ 32) :
    readString (pre ++ leBytes 4 s.length ++ s ++ suf) pre.length =
      some (s, pre.length + 4 + s.length) := by
  rw [readString]
  have h1 : pre ++ leBytes 4 s.length ++ s ++ suf =
      pre ++ leBytes 4 s.length ++ (s ++ suf) := by simp
  rw [h1, readU32_pre hs, obind_some]
  have h2 : pre ++ leBytes 4 s.length ++ (s ++ suf) =
      (pre ++ leBytes 4 s.length) ++ s ++ suf := by simp
  have h3 : (pre ++ leBytes 4 s.length).length = pre.length + 4 := by
    simp [leBytes_length]
  have h4 := @readFixedBytes_pre (pre ++ leBytes 4 s.length) s suf
  rw [h3] at h4
  rw [h2, h4, obind_some]

/-- C3: for every primitive and compound codec operation and every value in
its declared domain, reading back the bytes produced by the matching write
recovers the value exactly and leaves the cursor exactly past the bytes
written (`wr'.off = wr.off + width`). Vec and option operate over any
element codec that emits and reads back its own bytes. -/
theorem spec_C3_codec_roundtrip :
    (∀ (wr : BorshWriter) (v : Nat), WF wr → v < 2 ^ 8 →
      ∃ wr', wr.writeU8 v = some wr' ∧
        readU8 wr'.toBuffer wr.off = some (v, wr'.off)) ∧
    (∀ (wr : BorshWriter) (v : Nat), WF wr → v < 2 ^ 16 →
      ∃ wr', wr.writeU16 v = some wr' ∧
        readU16 wr'.toBuffer wr.off = some (v, wr'.off)) ∧
    (∀ (wr : BorshWriter) (v : Nat), WF wr → v < 2 ^ 32 →
      ∃ wr', wr.writeU32 v = some wr' ∧
        readU32 wr'.toBuffer wr.off = some (v, wr'.off)) ∧
    (∀ (wr : BorshWriter) (v : Nat), WF wr → v < 2 ^ 64 →
      ∃ wr', wr.writeU64 v = some wr' ∧
        readU64 wr'.toBuffer wr.off = some (v, wr'.off)) ∧
    (∀ (wr : BorshWriter) (v : Int), WF wr → -(2 ^ 63) ≤ v → v < 2 ^ 63 →
      ∃ wr', wr.writeI64 v = some wr' ∧
        readI64 wr'.toBuffer wr.off = some (v, wr'.off)) ∧
    (∀ (wr : BorshWriter) (v : Bool), WF wr →
      ∃ wr', wr.writeBool v = some wr' ∧
        readBool wr'.toBuffer wr.off = some (v, wr'.off)) ∧
    (∀ (wr : BorshWriter) (bs : List Nat), WF wr →
      ∃ wr', wr.writeFixedBytes bs = some wr' ∧
        readFixedBytes wr'.toBuffer wr.off bs.length = some (bs, wr'.off)) ∧
    (∀ (wr : BorshWriter) (s : List Nat), WF wr → s.length < 2 ^ 32 →
      ∃ wr', wr.writeString s = some wr' ∧
        readString wr'.toBuffer wr.off = some (s, wr'.off)) ∧
    (∀ (α : Type) (wr : BorshWriter) (xs : List α)
      (g : BorshWriter → α → Option BorshWriter)
      (rd : List Nat → Nat → Option (α × Nat)) (enc : α → List Nat), WF wr →
      xs.length < 2 ^ 32 → (∀ x ∈ xs, EmitsVal g x (enc x) ∧ ReadsBack rd x (enc x)) →
      ∃ wr', wr.writeVec xs g = some wr' ∧
        readVec rd wr'.toBuffer wr.off = some (xs, wr'.off)) ∧
    (∀ (α : Type) (wr : BorshWriter) (xo : Option α)
      (g : BorshWriter → α → Option BorshWriter)
      (rd : List Nat → Nat → Option (α × Nat)) (enc : α → List Nat), WF wr →
      (∀ x, xo = some x → EmitsVal g x (enc x) ∧ ReadsBack rd x (enc x)) →
      ∃ wr', wr.writeOption xo g = some wr' ∧
        readOption rd wr'.toBuffer wr.off = some (xo, wr'.off)) := by
  refine ⟨?_, ?_, ?_, ?_, ?_, ?_, ?_, ?_, ?_, ?_⟩
  · intro wr v hwf hv
    rcases writeU8_spec hwf hv with ⟨wr', h1, h2, h3, h4⟩
    refine ⟨wr', h1, ?_⟩
    have hpre := @readU8_pre wr.toBuffer [] v
    rw [List.append_nil, toBuffer_length hwf] at hpre
    rw [h2, hpre, h3]
  · intro wr v hwf hv
    rcases writeU16_spec hwf hv with ⟨wr', h1, h2, h3, h4⟩
    refine ⟨wr', h1, ?_⟩
    have hpre := @readU16_pre wr.toBuffer [] v hv
    rw [List.append_nil, toBuffer_length hwf] at hpre
    rw [h2, hpre, h3]
  · intro wr v hwf hv
    rcases writeU32_spec hwf hv with ⟨wr', h1, h2, h3, h4⟩
    refine ⟨wr', h1, ?_⟩
    have hpre := @readU32_pre wr.toBuffer [] v hv
    rw [List.append_nil, toBuffer_length hwf] at hpre
    rw [h2, hpre, h3]
  · intro wr v hwf hv
    rcases writeU64_spec hwf hv with ⟨wr', h1, h2, h3, h4⟩
    refine ⟨wr', h1, ?_⟩
    have hpre := @readU64_pre wr.toBuffer [] v hv
    rw [List.append_nil, toBuffer_length hwf] at hpre
    rw [h2, hpre, h3]
  · intro wr v hwf hv1 hv2
    rcases writeI64_spec hwf ⟨hv1, hv2⟩ with ⟨wr', h1, h2, h3, h4⟩
    refine ⟨wr', h1, ?_⟩
    have hpre := @readI64_pre wr.toBuffer [] v ⟨hv1, hv2⟩
    rw [List.append_nil, toBuffer_length hwf] at hpre
    rw [h2, hpre, h3]
  · intro wr v hwf
    rcases writeBool_spec (v := v) hwf with ⟨wr', h1, h2, h3, h4⟩
    refine ⟨wr', h1, ?_⟩
    have hpre := @readBool_pre wr.toBuffer [] v
    rw [List.append_nil, toBuffer_length hwf] at hpre
    rw [h2, hpre, h3]
  · intro wr bs hwf
    rcases @writeFixedBytes_spec _ bs hwf with ⟨wr', h1, h2, h3, h4⟩
    refine ⟨wr', h1, ?_⟩
    have hpre := @readFixedBytes_pre wr.toBuffer bs []
    rw [List.append_nil, toBuffer_length hwf] at hpre
    rw [h2, hpre, h3]
  · intro wr s hwf hs
    rcases writeString_spec hwf hs with ⟨wr', h1, h2, h3, h4⟩
    refine ⟨wr', h1, ?_⟩
    have hpre := @readString_pre wr.toBuffer [] s hs
    rw [List.append_nil, toBuffer_length hwf] at hpre
    rw [h2, hpre, h3]
  · intro α wr xs g rd enc hwf hlen hx
    rcases writeU32_spec hwf hlen with ⟨w1, hw1, hb1, ho1, hWF1⟩
    rcases foldlM_emits (fun x hxm => (hx x hxm).1) w1 hWF1 with
      ⟨w2, hw2, hb2, ho2, hWF2⟩
    refine ⟨w2, ?_, ?_⟩
    · rw [BorshWriter.writeVec, hw1, some_bind_eq, hw2]
    · rw [readVec, hb2, hb1]
      have hr32 := @readU32_pre wr.toBuffer ((xs.map enc).flatten) xs.length hlen
      rw [toBuffer_length hwf] at hr32
      rw [hr32, obind_some]
      have hrc := readCount_readsBack (fun x hxm => (hx x hxm).2)
        (wr.toBuffer ++ leBytes 4 xs.length) []
      rw [List.append_nil] at hrc
      have hlen2 : (wr.toBuffer ++ leBytes 4 xs.length).length = wr.off + 4 := by
        simp [leBytes_length, toBuffer_length hwf]
      rw [hlen2] at hrc
      rw [List.append_assoc] at hrc ⊢
      rw [hrc, ho2, ho1]
  · intro α wr xo g rd enc hwf hx
    cases xo with
    | none =>
      rcases writeU8_spec (v := 0) hwf (by norm_num) with ⟨wr', h1, h2, h3, h4⟩
      refine ⟨wr', h1, ?_⟩
      rw [readOption]
      have hpre := @readU8_pre wr.toBuffer [] 0
      rw [List.append_nil, toBuffer_length hwf] at hpre
      rw [h2, hpre, obind_some, if_pos rfl, h3]
    | some x =>
      rcases writeU8_spec (v := 1) hwf (by norm_num) with
        ⟨w1, hw1, hb1, ho1, hWF1⟩
      rcases (hx x rfl).1 w1 hWF1 with ⟨w2, hw2, hb2, ho2, hWF2⟩
      refine ⟨w2, ?_, ?_⟩
      · rw [BorshWriter.writeOption, hw1, some_bind_eq, hw2]
      · rw [readOption, hb2, hb1]
        have hpre := @readU8_pre wr.toBuffer (enc x) 1
        rw [toBuffer_length hwf] at hpre
        rw [hpre, obind_some, if_neg (by norm_num)]
        have hproj : ((1 : Nat), wr.off + 1).2 = wr.off + 1 := rfl
        rw [hproj]
        have hlen1 : (wr.toBuffer ++ [1]).length = wr.off + 1 := by
          simp [toBuffer_length hwf]
        have hrd := (hx x rfl).2 (wr.toBuffer ++ [1]) []
        rw [List.append_nil, hlen1] at hrd
        rw [hrd]
        simp only [Option.map_some']
        rw [ho2, ho1]

theorem take_toBuffer_append {wr : BorshWriter} (h : WF wr) (bs : List Nat) :
    (wr.toBuffer ++ bs).take wr.off = wr.toBuffer :=
  List.take_left' (toBuffer_length h)

theorem foldlM_frame {g : BorshWriter → α → Option BorshWriter} {xs : List α}
    (h : ∀ x, FramePreserving (fun wr => g wr x)) :
    ∀ wr wr', WF wr → xs.foldlM g wr = some wr' →
      wr'.toBuffer.take wr.off = wr.toBuffer ∧ wr.off ≤ wr'.off ∧ WF wr' := by
  induction xs with
  | nil =>
    intro wr wr' hwf hfold
    have : wr = wr' := by simpa using hfold
    subst this
    exact ⟨List.take_of_length_le (le_of_eq (toBuffer_length hwf)), le_refl _, hwf⟩
  | cons x xs ih =>
    intro wr wr' hwf hfold
    rw [List.foldlM_cons] at hfold
    rcases hg : g wr x with _ | w1
    · rw [hg] at hfold; simp at hfold
    · rw [hg, some_bind_eq] at hfold
      rcases h x wr w1 hwf hg with ⟨hf1, ho1, hWF1⟩
      rcases ih w1 wr' hWF1 hfold with ⟨hf2, ho2, hWF2⟩
      refine ⟨?_, by omega, hWF2⟩
      rw [← hf1, ← hf2, List.take_take, min_eq_left ho1]

/-- C8: every write either fails or grows the buffer in place: all bytes of
`toBuffer()` below the pre-call offset are unchanged, and the offset advances
by exactly the written field's width (4 + length for length-prefixed strings;
for `writeVec`/`writeOption` over any frame-preserving element writer, the
frame is preserved and the cursor never moves backwards). -/
theorem spec_C8_writer_frame :
    (∀ (wr wr' : BorshWriter) (v : Nat), WF wr → wr.writeU8 v = some wr' →
      wr'.toBuffer.take wr.off = wr.toBuffer ∧ wr'.off = wr.off + 1) ∧
    (∀ (wr wr' : BorshWriter) (v : Nat), WF wr → wr.writeU16 v = some wr' →
      wr'.toBuffer.take wr.off = wr.toBuffer ∧ wr'.off = wr.off + 2) ∧
    (∀ (wr wr' : BorshWriter) (v : Nat), WF wr → wr.writeU32 v = some wr' →
      wr'.toBuffer.take wr.off = wr.toBuffer ∧ wr'.off = wr.off + 4) ∧
    (∀ (wr wr' : BorshWriter) (v : Nat), WF wr → wr.writeU64 v = some wr' →
      wr'.toBuffer.take wr.off = wr.toBuffer ∧ wr'.off = wr.off + 8) ∧
    (∀ (wr wr' : BorshWriter) (v : Int), WF wr → wr.writeI64 v = some wr' →
      wr'.toBuffer.take wr.off = wr.toBuffer ∧ wr'.off = wr.off + 8) ∧
    (∀ (wr wr' : BorshWriter) (v : Bool), WF wr → wr.writeBool v = some wr' →
      wr'.toBuffer.take wr.off = wr.toBuffer ∧ wr'.off = wr.off + 1) ∧
    (∀ (wr wr' : BorshWriter) (bs : List Nat), WF wr → wr.writeFixedBytes bs = some wr' →
      wr'.toBuffer.take wr.off = wr.toBuffer ∧ wr'.off = wr.off + bs.length) ∧
    (∀ (wr wr' : BorshWriter) (s : List Nat), WF wr → wr.writeString s = some wr' →
      wr'.toBuffer.take wr.off = wr.toBuffer ∧ wr'.off = wr.off + 4 + s.length) ∧
    (∀ (α : Type) (g : BorshWriter → α → Option BorshWriter) (xs : List α),
      (∀ x, FramePreserving (fun wr => g wr x)) →
      FramePreserving (fun wr => wr.writeVec xs g)) ∧
    (∀ (α : Type) (g : BorshWriter → α → Option BorshWriter) (xo : Option α),
      (∀ x, FramePreserving (fun wr => g wr x)) →
      FramePreserving (fun wr => wr.writeOption xo g)) := by
  have hbytes : ∀ (wr wr' : BorshWriter) (bs : List Nat), WF wr →
      wr.writeBytesAt bs = some wr' →
      wr'.toBuffer.take wr.off = wr.toBuffer ∧ wr'.off = wr.off + bs.length ∧ WF wr' := by
    intro wr wr' bs hwf hw
    rcases writeBytesAt_spec bs hwf with ⟨w2, hw2, hb2, ho2, hWF2⟩
    rw [hw2] at hw
    injection hw with hw
    subst hw
    exact ⟨by rw [hb2]; exact take_toBuffer_append hwf bs, ho2, hWF2⟩
  refine ⟨?_, ?_, ?_, ?_, ?_, ?_, ?_, ?_, ?_, ?_⟩
  · intro wr wr' v hwf hw
    rw [BorshWriter.writeU8] at hw
    split at hw
    · simpa using And.intro (hbytes wr wr' [v] hwf hw).1 (hbytes wr wr' [v] hwf hw).2.1
    · exact absurd hw (by simp)
  · intro wr wr' v hwf hw
    rw [BorshWriter.writeU16] at hw
    split at hw
    · simpa [leBytes_length] using
        And.intro (hbytes wr wr' _ hwf hw).1 (hbytes wr wr' _ hwf hw).2.1
    · exact absurd hw (by simp)
  · intro wr wr' v hwf hw
    rw [BorshWriter.writeU32] at hw
    split at hw
    · simpa [leBytes_length] using
        And.intro (hbytes wr wr' _ hwf hw).1 (hbytes wr wr' _ hwf hw).2.1
    · exact absurd hw (by simp)
  · intro wr wr' v hwf hw
    rw [BorshWriter.writeU64] at hw
    split at hw
    · simpa [leBytes_length] using
        And.intro (hbytes wr wr' _ hwf hw).1 (hbytes wr wr' _ hwf hw).2.1
    · exact absurd hw (by simp)
  · intro wr wr' v hwf hw
    rw [BorshWriter.writeI64] at hw
    split at hw
    · simpa [leBytes_length] using
        And.intro (hbytes wr wr' _ hwf hw).1 (hbytes wr wr' _ hwf hw).2.1
    · exact absurd hw (by simp)
  · intro wr wr' v hwf hw
    rcases writeBool_spec (v := v) hwf with ⟨w2, hw2, hb2, ho2, hWF2⟩
    rw [hw2] at hw
    injection hw with hw
    subst hw
    exact ⟨by rw [hb2]; exact take_toBuffer_append hwf _, ho2⟩
  · intro wr wr' bs hwf hw
    rw [BorshWriter.writeFixedBytes] at hw
    exact ⟨(hbytes wr wr' bs hwf hw).1, (hbytes wr wr' bs hwf hw).2.1⟩
  · intro wr wr' s hwf hw
    rw [BorshWriter.writeString] at hw
    rcases hw1 : wr.writeU32 s.length with _ | w1
    · rw [hw1] at hw; simp at hw
    · rw [hw1, some_bind_eq] at hw
      rw [BorshWriter.writeU32] at hw1
      split at hw1
      · rcases hbytes wr w1 _ hwf hw1 with ⟨hf1, ho1, hWF1⟩
        rcases hbytes w1 wr' s hWF1 hw with ⟨hf2, ho2, hWF2⟩
        constructor
        · rw [← hf1, ← hf2, List.take_take, min_eq_left (by simp [leBytes_length] at ho1; omega)]
        · simp [leBytes_length] at ho1; omega
      · exact absurd hw1 (by simp)
  · intro α g xs hg wr wr' hwf hw
    simp only [] at hw
    rw [BorshWriter.writeVec.eq_def] at hw
    rcases hw1 : wr.writeU32 xs.length with _ | w1
    · rw [hw1] at hw; simp at hw
    · rw [hw1, some_bind_eq] at hw
      rw [BorshWriter.writeU32] at hw1
      split at hw1
      · rcases hbytes wr w1 _ hwf hw1 with ⟨hf1, ho1, hWF1⟩
        rcases foldlM_frame hg w1 wr' hWF1 hw with ⟨hf2, ho2, hWF2⟩
        refine ⟨?_, by simp [leBytes_length] at ho1; omega, hWF2⟩
        rw [← hf1, ← hf2, List.take_take, min_eq_left (by simp [leBytes_length] at ho1; omega)]
      · exact absurd hw1 (by simp)
  · intro α g xo hg wr wr' hwf hw
    simp only [] at hw
    cases xo with
    | none =>
      have hw' : wr.writeU8 0 = some wr' := hw
      rcases writeU8_spec (v := 0) hwf (by norm_num) with ⟨w2, hw2, hb2, ho2, hWF2⟩
      rw [hw2] at hw'
      injection hw' with hw'
      subst hw'
      exact ⟨by rw [hb2]; exact take_toBuffer_append hwf _, by omega, hWF2⟩
    | some x =>
      have hw' : ((wr.writeU8 1).bind fun w1 => g w1 x) = some wr' := hw
      rcases writeU8_spec (v := 1) hwf (by norm_num) with ⟨w1, hw1, hb1, ho1, hWF1⟩
      rw [hw1, Option.some_bind'] at hw'
      rcases hg x w1 wr' hWF1 hw' with ⟨hf2, ho2, hWF2⟩
      refine ⟨?_, by omega, hWF2⟩
      rw [← take_toBuffer_append hwf [1], ← hb1, ← hf2, List.take_take,
        min_eq_left (by omega)]

/-- C6: a read of `n` bytes succeeds exactly when `offset + n` fits in the
buffer and fails (returning nothing) otherwise; every returned cursor equals
the old cursor plus the bytes consumed and never exceeds the buffer length;
`readString` checks its length prefix against the remaining bytes before
reading the body; `readVec` and `readOption` stay in bounds whenever their
element reader does. -/
theorem spec_C6_reader_bounds :
    (∀ (b : List Nat) (off n : Nat),
      (readFixedBytes b off n).isSome ↔ off + n ≤ b.length) ∧
    (∀ (b : List Nat) (off n : Nat),
      (readUIntLE b off n).isSome ↔ off + n ≤ b.length) ∧
    (∀ (b : List Nat) (off : Nat), (readI64 b off).isSome ↔ off + 8 ≤ b.length) ∧
    (∀ (b : List Nat) (off : Nat), (readBool b off).isSome ↔ off + 1 ≤ b.length) ∧
    (∀ (b : List Nat) (off n : Nat), (skip b off n).isSome ↔ off + n ≤ b.length) ∧
    (∀ (b : List Nat) (off : Nat),
      (readString b off).isSome ↔
        off + 4 ≤ b.length ∧ off + 4 + leSlice b off 4 ≤ b.length) ∧
    (∀ (b : List Nat) (off n : Nat) (p : List Nat × Nat),
      readFixedBytes b off n = some p → p.2 = off + n ∧ p.2 ≤ b.length) ∧
    (∀ (b : List Nat) (off : Nat) (p : List Nat × Nat),
      readString b off = some p → p.2 = off + 4 + p.1.length ∧ p.2 ≤ b.length) ∧
    (∀ (α : Type) (f : List Nat → Nat → Option (α × Nat)),
      Bounded f → Bounded (readVec f)) ∧
    (∀ (α : Type) (f : List Nat → Nat → Option (α × Nat)),
      Bounded f → Bounded (readOption f)) := by
  refine ⟨?_, ?_, ?_, ?_, ?_, ?_, ?_, ?_, ?_, ?_⟩
  · intro b off n
    rw [readFixedBytes]
    split <;> simp_all
  · intro b off n
    rw [readUIntLE]
    split <;> simp_all
  · intro b off
    rw [readI64, readUIntLE]
    split <;> simp_all
  · intro b off
    rw [readBool, readU8, readUIntLE]
    split <;> simp_all
  · intro b off n
    rw [skip]
    split <;> simp_all
  · intro b off
    rw [Option.isSome_iff_exists]
    constructor
    · rintro ⟨p, hp⟩
      rw [readString] at hp
      simp only [obind_eq_some, readU32_eq_some, readFixedBytes_eq_some, and_assoc,
        exists_eq_left, Option.some.injEq] at hp
      exact ⟨hp.1, hp.2.1⟩
    · rintro ⟨h1, h2⟩
      refine ⟨(sliceBytes b (off + 4) (leSlice b off 4), off + 4 + leSlice b off 4), ?_⟩
      rw [readString]
      simp only [obind_eq_some, readU32_eq_some, readFixedBytes_eq_some, and_assoc,
        exists_eq_left, Option.some.injEq]
      exact ⟨h1, h2, trivial⟩
  · intro b off n p h
    rw [readFixedBytes_eq_some] at h
    rcases h with ⟨rfl, h2⟩
    exact ⟨rfl, h2⟩
  · intro b off p h
    rw [readString] at h
    simp only [obind_eq_some, readU32_eq_some, readFixedBytes_eq_some, and_assoc,
      exists_eq_left, Option.some.injEq] at h
    rcases h with ⟨h1, h2, rfl⟩
    constructor
    · simp [sliceBytes]
      omega
    · omega
  · intro α f hf b off v o' h
    rw [readVec] at h
    rcases h32 : readU32 b off with _ | q
    · rw [h32, obind_none] at h; simp at h
    · rw [h32, obind_some] at h
      rw [readU32_eq_some] at h32
      rcases h32 with ⟨rfl, hle⟩
      exact readCount_bounded hf _ b _ v o' (by omega) h
  · intro α f hf b off v o' h
    rw [readOption] at h
    rcases h8 : readU8 b off with _ | q
    · rw [h8, obind_none] at h; simp at h
    · rw [h8, obind_some] at h
      rw [readU8_eq_some] at h8
      rcases h8 with ⟨rfl, hle⟩
      split at h
      · simp only [Option.some.injEq, Prod.mk.injEq] at h
        omega
      · simp only [Option.map_eq_some'] at h
        rcases h with ⟨q2, hq2, hq3⟩
        have := hf b _ q2.1 q2.2 (by rw [← hq2])
        simp only [Prod.mk.injEq] at hq3
        omega

/-- C5: encoding any of the 7 ProposalAction variants with in-range fields
and decoding the produced bytes recovers the variant and its fields exactly,
consuming exactly the written bytes; decoding any tag byte of 7 or more
fails with no value. -/
theorem spec_C5_action_tag_closure :
    (∀ (a : ProposalAction) (wr : BorshWriter), actionWF a → WF wr →
      ∃ wr', writeProposalAction wr a = some wr' ∧
        decodeProposalAction wr'.toBuffer wr.off = some (a, wr'.off)) ∧
    (∀ (b : List Nat) (off : Nat), off < b.length → 7 ≤ leSlice b off 1 →
      decodeProposalAction b off = none) := by
  constructor
  · intro a wr ha hwf
    cases a with
    | resolveMarket v =>
      rcases writeU8_spec (v := 0) hwf (by norm_num) with ⟨w1, hw1, hb1, ho1, hWF1⟩
      rcases writeU8_spec (v := v) hWF1 ha with ⟨w2, hw2, hb2, ho2, hWF2⟩
      refine ⟨w2, ?_, ?_⟩
      · rw [writeProposalAction, hw1, obind_some, hw2]
      · rw [hb2, hb1, decodeProposalAction]
        have hp1 := @readU8_pre wr.toBuffer [v] 0
        rw [toBuffer_length hwf] at hp1
        rw [hp1, obind_some]
        dsimp only []
        simp only [Nat.reduceEqDiff, reduceIte, if_true]
        have hlen : (wr.toBuffer ++ [0]).length = wr.off + 1 := by
          simp [toBuffer_length hwf]
        have hp2 := @readU8_pre (wr.toBuffer ++ [0]) [] v
        rw [List.append_nil, hlen] at hp2
        rw [hp2, obind_some]
        rw [ho2, ho1]
    | voidMarket =>
      rcases writeU8_spec (v := 1) hwf (by norm_num) with ⟨w1, hw1, hb1, ho1, hWF1⟩
      refine ⟨w1, ?_, ?_⟩
      · rw [writeProposalAction, hw1]
      · rw [hb1, decodeProposalAction]
        have hp1 := @readU8_pre wr.toBuffer [] 1
        rw [List.append_nil, toBuffer_length hwf] at hp1
        rw [hp1, obind_some]
        dsimp only []
        simp only [Nat.reduceEqDiff, reduceIte, if_true]
        rw [ho1]
    | updateDeadline d =>
      rcases writeU8_spec (v := 2) hwf (by norm_num) with ⟨w1, hw1, hb1, ho1, hWF1⟩
      rcases writeI64_spec hWF1 ha with ⟨w2, hw2, hb2, ho2, hWF2⟩
      refine ⟨w2, ?_, ?_⟩
      · rw [writeProposalAction, hw1, obind_some, hw2]
      · rw [hb2, hb1, decodeProposalAction]
        have hp1 := @readU8_pre wr.toBuffer (leBytes 8 ((d % (2 ^ 64)).toNat)) 2
        rw [toBuffer_length hwf] at hp1
        rw [hp1, obind_some]
        dsimp only []
        simp only [Nat.reduceEqDiff, reduceIte, if_true]
        have hlen : (wr.toBuffer ++ [2]).length = wr.off + 1 := by
          simp [toBuffer_length hwf]
        have hp2 := @readI64_pre (wr.toBuffer ++ [2]) [] d ha
        rw [List.append_nil, hlen] at hp2
        rw [hp2, obind_some]
        rw [ho2, ho1]
    | updateFeeBps f =>
      rcases writeU8_spec (v := 3) hwf (by norm_num) with ⟨w1, hw1, hb1, ho1, hWF1⟩
      rcases writeU16_spec hWF1 ha with ⟨w2, hw2, hb2, ho2, hWF2⟩
      refine ⟨w2, ?_, ?_⟩
      · rw [writeProposalAction, hw1, obind_some, hw2]
      · rw [hb2, hb1, decodeProposalAction]
        have hp1 := @readU8_pre wr.toBuffer (leBytes 2 f) 3
        rw [toBuffer_length hwf] at hp1
        rw [hp1, obind_some]
        dsimp only []
        simp only [Nat.reduceEqDiff, reduceIte, if_true]
        have hlen : (wr.toBuffer ++ [3]).length = wr.off + 1 := by
          simp [toBuffer_length hwf]
        have hp2 := @readU16_pre (wr.toBuffer ++ [3]) [] f ha
        rw [List.append_nil, hlen] at hp2
        rw [hp2, obind_some]
        rw [ho2, ho1]
    | addSigner s =>
      rcases writeU8_spec (v := 4) hwf (by norm_num) with ⟨w1, hw1, hb1, ho1, hWF1⟩
      rcases @writeFixedBytes_spec _ s hWF1 with ⟨w2, hw2, hb2, ho2, hWF2⟩
      refine ⟨w2, ?_, ?_⟩
      · rw [writeProposalAction, hw1, obind_some, hw2]
      · rw [hb2, hb1, decodeProposalAction]
        have hp1 := @readU8_pre wr.toBuffer s 4
        rw [toBuffer_length hwf] at hp1
        rw [hp1, obind_some]
        dsimp only []
        simp only [Nat.reduceEqDiff, reduceIte, if_true]
        have hlen : (wr.toBuffer ++ [4]).length = wr.off + 1 := by
          simp [toBuffer_length hwf]
        have hp2 := @readFixedBytes_pre (wr.toBuffer ++ [4]) s []
        rw [List.append_nil, hlen, ha] at hp2
        rw [hp2, obind_some]
        rw [ho2, ho1, ha]
    | removeSigner s =>
      rcases writeU8_spec (v := 5) hwf (by norm_num) with ⟨w1, hw1, hb1, ho1, hWF1⟩
      rcases @writeFixedBytes_spec _ s hWF1 with ⟨w2, hw2, hb2, ho2, hWF2⟩
      refine ⟨w2, ?_, ?_⟩
      · rw [writeProposalAction, hw1, obind_some, hw2]
      · rw [hb2, hb1, decodeProposalAction]
        have hp1 := @readU8_pre wr.toBuffer s 5
        rw [toBuffer_length hwf] at hp1
        rw [hp1, obind_some]
        dsimp only []
        simp only [Nat.reduceEqDiff, reduceIte, if_true]
        have hlen : (wr.toBuffer ++ [5]).length = wr.off + 1 := by
          simp [toBuffer_length hwf]
        have hp2 := @readFixedBytes_pre (wr.toBuffer ++ [5]) s []
        rw [List.append_nil, hlen, ha] at hp2
        rw [hp2, obind_some]
        rw [ho2, ho1, ha]
    | changeThreshold t =>
      rcases writeU8_spec (v := 6) hwf (by norm_num) with ⟨w1, hw1, hb1, ho1, hWF1⟩
      rcases writeU8_spec (v := t) hWF1 ha with ⟨w2, hw2, hb2, ho2, hWF2⟩
      refine ⟨w2, ?_, ?_⟩
      · rw [writeProposalAction, hw1, obind_some, hw2]
      · rw [hb2, hb1, decodeProposalAction]
        have hp1 := @readU8_pre wr.toBuffer [t] 6
        rw [toBuffer_length hwf] at hp1
        rw [hp1, obind_some]
        dsimp only []
        simp only [Nat.reduceEqDiff, reduceIte, if_true]
        have hlen : (wr.toBuffer ++ [6]).length = wr.off + 1 := by
          simp [toBuffer_length hwf]
        have hp2 := @readU8_pre (wr.toBuffer ++ [6]) [] t
        rw [List.append_nil, hlen] at hp2
        rw [hp2, obind_some]
        rw [ho2, ho1]
  · intro b off hlt hge
    rw [decodeProposalAction]
    have h8 : readU8 b off = some (leSlice b off 1, off + 1) := by
      rw [readU8, readUIntLE, if_pos (by omega)]
    rw [h8, obind_some]
    dsimp only []
    rw [if_neg (by omega), if_neg (by omega), if_neg (by omega), if_neg (by omega),
      if_neg (by omega), if_neg (by omega), if_neg (by omega)]

theorem readFixedBytes_of_le {b : List Nat} {off n : Nat} (h : off + n ≤ b.length) :
    readFixedBytes b off n = some (sliceBytes b off n, off + n) := by
  rw [readFixedBytes, if_pos h]

theorem readU8_of_le {b : List Nat} {off : Nat} (h : off + 1 ≤ b.length) :
    readU8 b off = some (leSlice b off 1, off + 1) := by
  rw [readU8, readUIntLE, if_pos h]

theorem readU16_of_le {b : List Nat} {off : Nat} (h : off + 2 ≤ b.length) :
    readU16 b off = some (leSlice b off 2, off + 2) := by
  rw [readU16, readUIntLE, if_pos h]

theorem readU64_of_le {b : List Nat} {off : Nat} (h : off + 8 ≤ b.length) :
    readU64 b off = some (leSlice b off 8, off + 8) := by
  rw [readU64, readUIntLE, if_pos h]

theorem readPubkey_of_le {b : List Nat} {off : Nat} (h : off + 32 ≤ b.length) :
    readPubkey b off = some (sliceBytes b off 32, off + 32) := by
  rw [readPubkey, readFixedBytes, if_pos h]

theorem readBool_of_le {b : List Nat} {off : Nat} (h : off + 1 ≤ b.length) :
    readBool b off = some (leSlice b off 1 != 0, off + 1) := by
  rw [readBool, readU8, readUIntLE, if_pos h]
  rfl

theorem readI64_of_le {b : List Nat} {off : Nat} (h : off + 8 ≤ b.length) :
    readI64 b off = some (toI64 (leSlice b off 8), off + 8) := by
  rw [readI64, readUIntLE, if_pos h]
  rfl

theorem decodeProposalAction_some_of {b : List Nat} {off : Nat}
    (hoff : off + 33 ≤ b.length) (ht : leSlice b off 1 < 7) :
    ∃ a o2, decodeProposalAction b off = some (a, o2) ∧ off + 1 ≤ o2 ∧ o2 ≤ off + 33 := by
  rw [decodeProposalAction, readU8_of_le (by omega), obind_some]
  dsimp only []
  have ht7 : leSlice b off 1 = 0 ∨ leSlice b off 1 = 1 ∨ leSlice b off 1 = 2 ∨
      leSlice b off 1 = 3 ∨ leSlice b off 1 = 4 ∨ leSlice b off 1 = 5 ∨
      leSlice b off 1 = 6 := by omega
  rcases ht7 with h | h | h | h | h | h | h <;> rw [h] <;>
    simp only [Nat.reduceEqDiff, reduceIte, if_true, if_false]
  · rw [readU8_of_le (by omega), obind_some]
    exact ⟨_, _, rfl, by omega, by omega⟩
  · exact ⟨_, _, rfl, by omega, by omega⟩
  · rw [readI64_of_le (by omega), obind_some]
    exact ⟨_, _, rfl, by omega, by omega⟩
  · rw [readU16_of_le (by omega), obind_some]
    exact ⟨_, _, rfl, by omega, by omega⟩
  · rw [readFixedBytes_of_le (by omega), obind_some]
    exact ⟨_, _, rfl, by omega, by omega⟩
  · rw [readFixedBytes_of_le (by omega), obind_some]
    exact ⟨_, _, rfl, by omega, by omega⟩
  · rw [readU8_of_le (by omega), obind_some]
    exact ⟨_, _, rfl, by omega, by omega⟩

theorem decodeMultisigProposal_disc {b : List Nat} {m : MultisigProposalAccount}
    (h : decodeMultisigProposal b = some m) : m.discriminator = b.take 8 := by
  rw [decodeMultisigProposal] at h
  simp only [obind_eq_some, readFixedBytes_eq_some, readU8_eq_some, readPubkey_eq_some,
    readU64_eq_some, readU16_eq_some, readBool_eq_some, readI64_eq_some, and_assoc,
    exists_eq_left, Option.some.injEq] at h
  obtain ⟨h1, h2, h3, h4, h5, a, ha, h6, h7, h8, h9, h10, hm⟩ := h
  rw [← hm]
  simp [sliceBytes]

theorem decodeMultisigProposal_isSome {b : List Nat} (h1 : 158 ≤ b.length)
    (h2 : leSlice b 81 1 < 7) : (decodeMultisigProposal b).isSome := by
  rcases @decodeProposalAction_some_of _ 81 (by omega) h2 with
    ⟨a, o2, ha, hlo, hhi⟩
  rw [decodeMultisigProposal]
  rw [readFixedBytes_of_le (by omega), obind_some]
  dsimp only []
  rw [readU8_of_le (by omega), obind_some]
  dsimp only []
  rw [readPubkey_of_le (by omega), obind_some]
  dsimp only []
  rw [readPubkey_of_le (by omega), obind_some]
  dsimp only []
  rw [readU64_of_le (by omega), obind_some]
  dsimp only []
  simp only [Nat.reduceAdd]
  rw [ha, obind_some]
  dsimp only []
  rw [readPubkey_of_le (by omega), obind_some]
  dsimp only []
  rw [readU16_of_le (by omega), obind_some]
  dsimp only []
  rw [readU8_of_le (by omega), obind_some]
  dsimp only []
  rw [readBool_of_le (by omega), obind_some]
  dsimp only []
  rw [readI64_of_le (by omega), obind_some]
  rfl

/-- C1 counterexample: an all-zero 91-byte buffer, whose first 8 bytes do not
match the UserPosition discriminator, is decoded by `decodeUserPosition` into
a typed record instead of failing with a discriminator mismatch. -/
theorem spec_C1_counterexample :
    decodeUserPosition (List.replicate 91 0) =
      some (userPositionOf (List.replicate 91 0)) ∧
    (List.replicate 91 0).take 8 ≠ ACCOUNT_DISCRIMINATORS.USER_POSITION :=
  ⟨decodeUserPosition_eq_some.2 ⟨by simp, rfl⟩, by decide⟩

/-- C1 (amended): the decoders perform no discriminator validation at all.
On success each returns the buffer's first 8 bytes verbatim in its
`discriminator` field, and each succeeds on any sufficiently long buffer
regardless of those 8 bytes (`decodeMarket` additionally needs an in-range
outcome count, `decodeMultisigProposal` an in-range action tag); no
discriminator-mismatch failure exists. -/
theorem spec_C1_no_discriminator_check :
    (∀ (b : List Nat) (m : UserPositionAccount),
      decodeUserPosition b = some m → m.discriminator = b.take 8) ∧
    (∀ b : List Nat, 91 ≤ b.length → (decodeUserPosition b).isSome) ∧
    (∀ (b : List Nat) (m : ProtocolConfigAccount),
      decodeProtocolConfig b = some m → m.discriminator = b.take 8) ∧
    (∀ b : List Nat, 92 ≤ b.length → (decodeProtocolConfig b).isSome) ∧
    (∀ (b : List Nat) (m : MultisigAuthorityAccount),
      decodeMultisigAuthority b = some m → m.discriminator = b.take 8) ∧
    (∀ b : List Nat, 379 ≤ b.length → (decodeMultisigAuthority b).isSome) ∧
    (∀ (b : List Nat) (m : MarketAccount),
      decodeMarket b = some m → m.discriminator = b.take 8) ∧
    (∀ b : List Nat, 1558 ≤ b.length → leSlice b 78 1 ≤ 10 → (decodeMarket b).isSome) ∧
    (∀ (b : List Nat) (m : MultisigProposalAccount),
      decodeMultisigProposal b = some m → m.discriminator = b.take 8) ∧
    (∀ b : List Nat, 158 ≤ b.length → leSlice b 81 1 < 7 →
      (decodeMultisigProposal b).isSome) := by
  refine ⟨?_, ?_, ?_, ?_, ?_, ?_, ?_, ?_, ?_, ?_⟩
  · intro b m h
    rcases decodeUserPosition_eq_some.1 h with ⟨-, rfl⟩
    simp [userPositionOf, sliceBytes]
  · intro b h
    exact Option.isSome_iff_exists.2
      ⟨userPositionOf b, decodeUserPosition_eq_some.2 ⟨h, rfl⟩⟩
  · intro b m h
    rcases decodeProtocolConfig_eq_some.1 h with ⟨-, rfl⟩
    simp [protocolConfigOf, sliceBytes]
  · intro b h
    exact Option.isSome_iff_exists.2
      ⟨protocolConfigOf b, decodeProtocolConfig_eq_some.2 ⟨h, rfl⟩⟩
  · intro b m h
    rcases decodeMultisigAuthority_eq_some.1 h with ⟨-, rfl⟩
    simp [multisigAuthorityOf, sliceBytes]
  · intro b h
    exact Option.isSome_iff_exists.2
      ⟨multisigAuthorityOf b, decodeMultisigAuthority_eq_some.2 ⟨h, rfl⟩⟩
  · intro b m h
    rcases decodeMarket_eq_some.1 h with ⟨-, -, -, rfl⟩ | ⟨-, -, -, rfl⟩
    · simp [newLayoutMarket, sliceBytes]
    · simp [oldLayoutMarket, sliceBytes]
  · intro b hlen hn
    cases hpn : marketProbeNew b with
    | false =>
      exact Option.isSome_iff_exists.2 ⟨oldLayoutMarket b,
        decodeMarket_eq_some.2 (Or.inr ⟨hpn, by omega, hn, rfl⟩)⟩
    | true =>
      exact Option.isSome_iff_exists.2 ⟨newLayoutMarket b,
        decodeMarket_eq_some.2 (Or.inl ⟨hpn, hlen, hn, rfl⟩)⟩
  · intro b m h
    exact decodeMultisigProposal_disc h
  · intro b h1 h2
    exact decodeMultisigProposal_isSome h1 h2

/-- Witness for the amended C1 at concrete inputs: all-zero buffers of each
decoder's size decode successfully and return the zero discriminator. -/
theorem spec_C1_no_discriminator_check_witness :
    (decodeUserPosition (List.replicate 91 1)).isSome ∧
    (decodeProtocolConfig (List.replicate 92 1)).isSome ∧
    (decodeMultisigAuthority (List.replicate 379 1)).isSome ∧
    (decodeMarket (List.replicate 1558 0)).isSome ∧
    (decodeMultisigProposal (List.replicate 158 0)).isSome :=
  ⟨spec_C1_no_discriminator_check.2.1 _ (by simp),
   spec_C1_no_discriminator_check.2.2.2.1 _ (by simp),
   spec_C1_no_discriminator_check.2.2.2.2.2.1 _ (by simp),
   spec_C1_no_discriminator_check.2.2.2.2.2.2.2.1 _ (by simp) (by decide),
   spec_C1_no_discriminator_check.2.2.2.2.2.2.2.2.2 _ (by simp) (by decide)⟩

/-- C2: dual-layout fallback of `decodeMarket` on a sufficiently long Market
buffer (per the data model, `numOutcomes ≤ 10`). If the speculative
new-layout title length (offset 382) is 0 while the old-layout title length
(offset `preCreatorOffset + 128 = 348`) is nonzero and within the 128-byte
capacity, decoding yields the zero-address creator, zero creator fee and the
legacy title from the 128-byte region at `preCreatorOffset = 220`; if the
new-layout title length is nonzero, decoding yields the creator read at 220,
the creator fee at 252 and the title from the region at 254. -/
theorem spec_C2_dual_layout (b : List Nat) (hlen : 1558 ≤ b.length)
    (hn : leSlice b 78 1 ≤ 10) :
    (leSlice b 382 2 = 0 → 0 < leSlice b 348 2 → leSlice b 348 2 ≤ 128 →
      ∃ m, decodeMarket b = some m ∧ m.creator = List.replicate 32 0 ∧
        m.creatorFeeBps = 0 ∧
        m.title = (sliceBytes b 220 128).take (leSlice b 348 2)) ∧
    (leSlice b 382 2 ≠ 0 →
      ∃ m, decodeMarket b = some m ∧ m.creator = sliceBytes b 220 32 ∧
        m.creatorFeeBps = leSlice b 252 2 ∧
        m.title = (sliceBytes b 254 128).take (leSlice b 382 2)) := by
  constructor
  · intro h0 h1 h2
    have hp : marketProbeNew b = false := by
      rw [marketProbeNew, if_pos ⟨h0, by omega, h1, h2⟩]
    exact ⟨oldLayoutMarket b,
      decodeMarket_eq_some.2 (Or.inr ⟨hp, by omega, hn, rfl⟩), rfl, rfl, rfl⟩
  · intro h0
    have hp : marketProbeNew b = true := by
      rw [marketProbeNew, if_neg (by tauto)]
    exact ⟨newLayoutMarket b,
      decodeMarket_eq_some.2 (Or.inl ⟨hp, hlen, hn, rfl⟩), rfl, rfl, rfl⟩

/-- C7: every successfully decoded Market has exactly `numOutcomes` entries
in `outcomePools` and `outcomeLabels`, even though 10 fixed slots are read
from the buffer. -/
theorem spec_C7_outcome_truncation (b : List Nat) (m : MarketAccount)
    (h : decodeMarket b = some m) :
    m.outcomePools.length = m.numOutcomes ∧ m.outcomeLabels.length = m.numOutcomes := by
  rcases decodeMarket_eq_some.1 h with ⟨-, -, hn, rfl⟩ | ⟨-, -, hn, rfl⟩ <;>
    simp [newLayoutMarket, oldLayoutMarket] <;> omega

/-- C9: whenever the dual-layout probe selects the new layout, the dual-layout
`decodeMarket` agrees with the unconditional new-layout `decodeMarketV2` of
the earlier SDK revision on the whole result (both the decoded record and
failure behaviour). -/
theorem spec_C9_dual_refines_v2 (b : List Nat) (hp : marketProbeNew b = true) :
    decodeMarket b = decodeMarketV2 b := by
  rcases hcase : decodeMarket b with _ | m
  · rcases hv2 : decodeMarketV2 b with _ | m2
    · rfl
    · rcases decodeMarketV2_eq_some.1 hv2 with ⟨h1558, hn, rfl⟩
      rw [decodeMarket_eq_some.2 (Or.inl ⟨hp, h1558, hn, rfl⟩)] at hcase
      exact absurd hcase (by simp)
  · rcases decodeMarket_eq_some.1 hcase with ⟨-, h1558, hn, rfl⟩ | ⟨hp2, -, -, -⟩
    · exact (decodeMarketV2_eq_some.2 ⟨h1558, hn, rfl⟩).symm
    · rw [hp] at hp2; exact absurd hp2 (by simp)

/-- C4: native-path `placeBet(outcomeIndex = 0, amount = 1 SOL)` builds, for
any choice of account pubkeys and program id, the instruction whose data is
the opcode byte `2`, the outcome byte `0`, and the little-endian u64
`1_000_000_000`, and whose key list is exactly writable market, writable
vault, writable position, writable-signer bettor, read-only protocolConfig,
read-only system program — with no token-account suffix. -/
theorem spec_C4_placeBet_native
    (market vault position bettor protocolConfig programId : List Nat) :
    placeBet { market, vault, position, bettor, protocolConfig }
        0 1000000000 programId =
      some { programId,
             keys := [⟨market, false, true⟩, ⟨vault, false, true⟩,
                      ⟨position, false, true⟩, ⟨bettor, true, true⟩,
                      ⟨protocolConfig, false, false⟩,
                      ⟨List.replicate 32 0, false, false⟩],
             data := [2, 0, 0, 202, 154, 59, 0, 0, 0, 0] } := by
  rfl

/-- C10 counterexample: JS bigint division truncates toward zero, not toward
negative infinity, so `calculatePayout(-1, 2, 1, 0)` returns gross `0` while
the floored quotient of `positionAmount * totalPool` by `winningPool` is
`-1`; the claimed `gross = floor(positionAmount * totalPool / winningPool)`
fails for negative inputs. -/
theorem spec_C10_counterexample :
    calculatePayout (-1) 2 1 0 = some (0, 0, 0) ∧
    Int.fdiv ((-1 : Int) * 1) 2 = -1 ∧ ((0 : Int) ≠ Int.fdiv ((-1 : Int) * 1) 2) := by
  refine ⟨?_, by decide, by decide⟩
  rw [calculatePayout, if_neg (by decide)]
  decide

/-- C10 (amended): on nonnegative `positionAmount`, `totalPool`, `feeBps` and
positive `winningPool` — the domain in which the client calls it —
`calculatePayout` returns `gross = floor(positionAmount * totalPool /
winningPool)`, `fee = floor(gross * feeBps / 10000)`, and `net = gross - fee`
with `net + fee = gross` exactly; on `winningPool = 0` it throws (returns no
result) for every other argument. -/
theorem spec_C10_payout_floor :
    (∀ positionAmount winningPool totalPool feeBps : Int,
      0 ≤ positionAmount → 0 ≤ totalPool → 0 < winningPool → 0 ≤ feeBps →
      ∃ gross fee net,
        calculatePayout positionAmount winningPool totalPool feeBps =
          some (gross, fee, net) ∧
        gross = Int.fdiv (positionAmount * totalPool) winningPool ∧
        fee = Int.fdiv (gross * feeBps) 10000 ∧
        net = gross - fee ∧ net + fee = gross) ∧
    (∀ positionAmount totalPool feeBps : Int,
      calculatePayout positionAmount 0 totalPool feeBps = none) := by
  constructor
  · intro pa wp tp fee hpa htp hwp hfee
    have h1 : Int.fdiv (pa * tp) wp = Int.tdiv (pa * tp) wp :=
      Int.fdiv_eq_tdiv (mul_nonneg hpa htp) (le_of_lt hwp)
    have hg : 0 ≤ Int.tdiv (pa * tp) wp := by
      rw [← h1]; exact Int.fdiv_nonneg (mul_nonneg hpa htp) (le_of_lt hwp)
    have h2 : Int.fdiv (Int.tdiv (pa * tp) wp * fee) 10000 =
        Int.tdiv (Int.tdiv (pa * tp) wp * fee) 10000 :=
      Int.fdiv_eq_tdiv (mul_nonneg hg hfee) (by norm_num)
    refine ⟨_, _, _, ?_, h1.symm, h2.symm, rfl, by ring⟩
    rw [calculatePayout, if_neg (by omega)]
  · intro pa tp fee
    rw [calculatePayout, if_pos rfl]

/-- C10 witness: the amended theorem at `(3, 2, 10, 500)`. -/
theorem spec_C10_payout_floor_witness :
    ∃ gross fee net, calculatePayout 3 2 10 500 = some (gross, fee, net) ∧
      gross = Int.fdiv ((3 : Int) * 10) 2 ∧
      fee = Int.fdiv (gross * 500) 10000 ∧
      net = gross - fee ∧ net + fee = gross :=
  spec_C10_payout_floor.1 3 2 10 500 (by decide) (by decide) (by decide) (by decide)

theorem WF_new256 : WF (BorshWriter.new 256) := by
  constructor <;> decide

theorem framePreserving_pure : FramePreserving (fun wr => some wr) := by
  intro wr wr' hwf h
  injection h with h
  subst h
  exact ⟨List.take_of_length_le (le_of_eq (toBuffer_length hwf)), le_refl _, hwf⟩

/-- C2 witness: the dual-layout theorem at an all-zero 1558-byte buffer with
old-layout title length 1 (legacy branch) and at one with new-layout title
length 1 (new branch). -/
theorem spec_C2_dual_layout_witness :
    (∃ m, decodeMarket (List.replicate 348 0 ++ [1, 0] ++ List.replicate 1208 0) = some m ∧
      m.creator = List.replicate 32 0 ∧ m.creatorFeeBps = 0 ∧
      m.title = (sliceBytes (List.replicate 348 0 ++ [1, 0] ++ List.replicate 1208 0) 220 128).take
        (leSlice (List.replicate 348 0 ++ [1, 0] ++ List.replicate 1208 0) 348 2)) ∧
    (∃ m, decodeMarket (List.replicate 382 0 ++ [1, 0] ++ List.replicate 1174 0) = some m ∧
      m.creator = sliceBytes (List.replicate 382 0 ++ [1, 0] ++ List.replicate 1174 0) 220 32 ∧
      m.creatorFeeBps = leSlice (List.replicate 382 0 ++ [1, 0] ++ List.replicate 1174 0) 252 2 ∧
      m.title = (sliceBytes (List.replicate 382 0 ++ [1, 0] ++ List.replicate 1174 0) 254 128).take
        (leSlice (List.replicate 382 0 ++ [1, 0] ++ List.replicate 1174 0) 382 2)) :=
  ⟨(spec_C2_dual_layout _ (by decide) (by decide)).1 (by decide) (by decide) (by decide),
   (spec_C2_dual_layout _ (by decide) (by decide)).2 (by decide)⟩

/-- C3 witness: each codec round-trip conjunct at a fresh 256-capacity writer
and concrete in-range values (the empty vec and absent option for the
compound codecs). -/
theorem spec_C3_codec_roundtrip_witness :
    (∃ wr', (BorshWriter.new 256).writeU8 7 = some wr' ∧
      readU8 wr'.toBuffer 0 = some (7, wr'.off)) ∧
    (∃ wr', (BorshWriter.new 256).writeU16 65535 = some wr' ∧
      readU16 wr'.toBuffer 0 = some (65535, wr'.off)) ∧
    (∃ wr', (BorshWriter.new 256).writeU32 4294967295 = some wr' ∧
      readU32 wr'.toBuffer 0 = some (4294967295, wr'.off)) ∧
    (∃ wr', (BorshWriter.new 256).writeU64 18446744073709551615 = some wr' ∧
      readU64 wr'.toBuffer 0 = some (18446744073709551615, wr'.off)) ∧
    (∃ wr', (BorshWriter.new 256).writeI64 (-1) = some wr' ∧
      readI64 wr'.toBuffer 0 = some (-1, wr'.off)) ∧
    (∃ wr', (BorshWriter.new 256).writeBool true = some wr' ∧
      readBool wr'.toBuffer 0 = some (true, wr'.off)) ∧
    (∃ wr', (BorshWriter.new 256).writeFixedBytes [9, 8, 7] = some wr' ∧
      readFixedBytes wr'.toBuffer 0 3 = some ([9, 8, 7], wr'.off)) ∧
    (∃ wr', (BorshWriter.new 256).writeString [104, 105] = some wr' ∧
      readString wr'.toBuffer 0 = some ([104, 105], wr'.off)) ∧
    (∃ wr', (BorshWriter.new 256).writeVec ([] : List Nat) (fun wr x => wr.writeU8 x) = some wr' ∧
      readVec readU8 wr'.toBuffer 0 = some ([], wr'.off)) ∧
    (∃ wr', (BorshWriter.new 256).writeOption (none : Option Nat) (fun wr x => wr.writeU8 x) = some wr' ∧
      readOption readU8 wr'.toBuffer 0 = some (none, wr'.off)) := by
  obtain ⟨h1, h2, h3, h4, h5, h6, h7, h8, h9, h10⟩ := spec_C3_codec_roundtrip
  exact ⟨h1 _ 7 WF_new256 (by decide), h2 _ 65535 WF_new256 (by decide),
    h3 _ 4294967295 WF_new256 (by decide), h4 _ 18446744073709551615 WF_new256 (by decide),
    h5 _ (-1) WF_new256 (by decide) (by decide), h6 _ true WF_new256,
    h7 _ [9, 8, 7] WF_new256, h8 _ [104, 105] WF_new256 (by decide),
    h9 Nat _ [] _ readU8 (fun x => [x]) WF_new256 (by decide) (by intro x hx; cases hx),
    h10 Nat _ none _ readU8 (fun x => [x]) WF_new256 (by intro x hx; cases hx)⟩

/-- C5 witness: the round-trip at the `VoidMarket` variant on a fresh writer,
and the unknown-tag failure at the one-byte buffer `[7]`. -/
theorem spec_C5_action_tag_closure_witness :
    (∃ wr', writeProposalAction (BorshWriter.new 256) ProposalAction.voidMarket = some wr' ∧
      decodeProposalAction wr'.toBuffer 0 = some (ProposalAction.voidMarket, wr'.off)) ∧
    decodeProposalAction [7] 0 = none :=
  ⟨spec_C5_action_tag_closure.1 ProposalAction.voidMarket _ (by trivial) WF_new256,
   spec_C5_action_tag_closure.2 [7] 0 (by decide) (by decide)⟩

/-- C6 witness: the cursor conjuncts at concrete successful reads and the
boundedness conjuncts at the one-byte unsigned-integer reader. -/
theorem spec_C6_reader_bounds_witness :
    ((2 : Nat) = 0 + 2 ∧ (2 : Nat) ≤ [(1 : Nat), 2].length) ∧
    ((5 : Nat) = 0 + 4 + [(9 : Nat)].length ∧ (5 : Nat) ≤ [(1 : Nat), 0, 0, 0, 9].length) ∧
    Bounded (readVec (fun b off => readUIntLE b off 1)) ∧
    Bounded (readOption (fun b off => readUIntLE b off 1)) := by
  obtain ⟨-, -, -, -, -, -, h7, h8, h9, h10⟩ := spec_C6_reader_bounds
  exact ⟨h7 [1, 2] 0 2 ([1, 2], 2) (by decide), h8 [1, 0, 0, 0, 9] 0 ([9], 5) (by decide),
    h9 Nat _ readUIntLE_bounded, h10 Nat _ readUIntLE_bounded⟩

/-- C7 witness: the all-zero 1558-byte buffer decodes (new layout,
`numOutcomes = 0`) and its pools and labels have length `numOutcomes`. -/
theorem spec_C7_outcome_truncation_witness :
    (newLayoutMarket (List.replicate 1558 0)).outcomePools.length =
      (newLayoutMarket (List.replicate 1558 0)).numOutcomes ∧
    (newLayoutMarket (List.replicate 1558 0)).outcomeLabels.length =
      (newLayoutMarket (List.replicate 1558 0)).numOutcomes :=
  spec_C7_outcome_truncation (List.replicate 1558 0) _
    (decodeMarket_eq_some.2 (Or.inl ⟨by decide, by decide, by decide, rfl⟩))

/-- C8 witness: the u8 frame conjunct at a fresh writer, and the
vec/option frame conjuncts at a trivially frame-preserving element writer. -/
theorem spec_C8_writer_frame_witness :
    (∃ wr', (BorshWriter.new 256).writeU8 5 = some wr' ∧
      wr'.toBuffer.take 0 = (BorshWriter.new 256).toBuffer ∧ wr'.off = 0 + 1) ∧
    FramePreserving (fun wr => wr.writeVec [(0 : Nat)] (fun wr _ => some wr)) ∧
    FramePreserving (fun wr => wr.writeOption (some (0 : Nat)) (fun wr _ => some wr)) := by
  refine ⟨?_, spec_C8_writer_frame.2.2.2.2.2.2.2.2.1 Nat _ [0] (fun x => framePreserving_pure),
    spec_C8_writer_frame.2.2.2.2.2.2.2.2.2 Nat _ (some 0) (fun x => framePreserving_pure)⟩
  rcases hw : (BorshWriter.new 256).writeU8 5 with _ | wr'
  · exact absurd hw (by decide)
  · rcases spec_C8_writer_frame.1 _ wr' 5 WF_new256 hw with ⟨hf, ho⟩
    exact ⟨wr', rfl, hf, ho⟩

/-- C9 witness: the probe selects the new layout on the all-zero 1558-byte
buffer, and the two decoders agree there. -/
theorem spec_C9_dual_refines_v2_witness :
    decodeMarket (List.replicate 1558 0) = decodeMarketV2 (List.replicate 1558 0) :=
  spec_C9_dual_refines_v2 _ (by decide)
